import Mathlib

/-!
# Verification of the kybra-simple-db persistence engine

A shallow embedding of the core of `kybra_simple_db` (the database engine
with its audit log, the entity lifecycle with per-type id/count counters,
the property/hook system, the relationship system, the identity map and
serialization) together with proofs of the specification's claims about it.

Python strings stay `String`; Python ints are `Int`; JSON-encodable values
are modelled at the parsed level by an inductive `Json` (for the values the
engine reads and writes, `json.loads` after `json.dumps` is the identity, so
storing the parsed value is faithful).  Python dicts keep insertion order,
so they are association lists.  Exceptions are modelled by returning the
post-state paired with an optional error (mutations performed before a
`raise` persist, exactly as in Python).
-/

set_option autoImplicit false

namespace KSDB

/-- Parsed JSON values: the image of the Python values the engine passes to
`json.dumps`.  Objects are insertion-ordered association lists, as Python
dicts are. -/
inductive Json where
  | null
  | str (s : String)
  | num (n : Int)
  | arr (items : List Json)
  | obj (fields : List (String × Json))

/-- Accumulating decimal evaluation of a digit run (`none` on a
non-digit). -/
def digitsVal : List Char → Nat → Option Nat
  | [], acc => some acc
  | c :: cs, acc =>
      if c.isDigit then digitsVal cs (acc * 10 + (c.toNat - 48)) else none

/-- Decimal digits to a number (`none` on a non-digit or an empty list). -/
def digitsToNat? : List Char → Option Nat
  | [] => none
  | cs => digitsVal cs 0

/-- Python `int(s)` on a canonical decimal string, `none` where `int`
raises `ValueError`. -/
def strToInt? (s : String) : Option Int :=
  match s.data with
  | [] => Option.none
  | c :: cs =>
      if c = '-' then (digitsToNat? cs).map (fun n => -(n : Int))
      else (digitsToNat? (c :: cs)).map (fun n => (n : Int))

/-- The ASCII digit character for `d < 10`. -/
def digitChar (d : Nat) : Char :=
  Char.ofNat (48 + d)

/-- The big-endian decimal digit string of `n`, with explicit fuel (any
fuel above the digit count gives the canonical string; `pyStr` always
supplies enough). -/
def natDigits : Nat → Nat → List Char
  | 0, _ => []
  | fuel + 1, n =>
      if n < 10 then [digitChar n]
      else natDigits fuel (n / 10) ++ [digitChar (n % 10)]

/-- Python `str(n)` for a natural number. -/
def pyStr (n : Nat) : String :=
  ⟨natDigits (n + 1) n⟩

/-- Python `str(k)` for an integer. -/
def intStr (k : Int) : String :=
  if k < 0 then "-" ++ pyStr (-k).toNat else pyStr k.toNat

/-- Python truthiness (`if data:`) of a parsed JSON value. -/
def Json.truthy : Json → Bool
  | .null => false
  | .str s => s ≠ ""
  | .num n => n ≠ 0
  | .arr l => !l.isEmpty
  | .obj fs => !fs.isEmpty

/-- `d[field] = value` on a Python dict, preserving insertion order:
an existing key is overwritten in place, a new key is appended.
(Only ever applied to `obj` values, as in the source, where `update`
mutates the dict returned by `load`.) -/
def Json.objSet : Json → String → Json → Json
  | .obj fs, k, v =>
      if fs.any (fun p => p.1 == k) then
        .obj (fs.map (fun p => if p.1 == k then (k, v) else p))
      else
        .obj (fs ++ [(k, v)])
  | j, _, _ => j

/-- A value held by a key-value store: either a raw string (the audit
`_min_id` / `_max_id` sentinels are inserted without JSON encoding) or a
JSON-encoded value, kept in parsed form. -/
inductive SVal where
  | raw (s : String)
  | js (j : Json)

/-- `MemoryStorage`: a Python dict from string keys to string values,
modelled as an insertion-ordered association list. -/
abbrev Store := List (String × SVal)

namespace Store

/-- `MemoryStorage.get`: `self._data.get(key)`. -/
def get (st : Store) (k : String) : Option SVal :=
  (st.find? (fun p => p.1 == k)).map Prod.snd

/-- `MemoryStorage.insert`: `self._data[key] = value` (dict semantics:
overwrite in place, or append a new key). -/
def insert (st : Store) (k : String) (v : SVal) : Store :=
  if st.any (fun p => p.1 == k) then
    st.map (fun p => if p.1 == k then (k, v) else p)
  else
    st ++ [(k, v)]

/-- `MemoryStorage.remove`: deletes the key, or raises `KeyError` (modelled
as `none`) when the key is absent. -/
def remove (st : Store) (k : String) : Option Store :=
  if st.any (fun p => p.1 == k) then
    some (st.filter (fun p => p.1 != k))
  else
    none

end Store

/-- A value held by the audit store: the raw `_min_id`/`_max_id` sentinels,
or one audit record `[op, timestamp, key, payload]` (stored JSON-encoded in
the source; kept in parsed form here).  For `save`/`update` the payload is
the record dict; for `delete` it is the value previously stored under the
key (in the source still in its encoded string form — the payload is never
re-inspected by the engine). -/
inductive AuditVal where
  | raw (s : String)
  | entry (op : String) (ts : Int) (key : String) (payload : Option SVal)

/-- The audit store: a `MemoryStorage` holding `AuditVal`s. -/
abbrev AuditStore := List (String × AuditVal)

namespace AuditStore

/-- `get` on the audit store. -/
def get (st : AuditStore) (k : String) : Option AuditVal :=
  (st.find? (fun p => p.1 == k)).map Prod.snd

/-- `insert` on the audit store (dict semantics). -/
def insert (st : AuditStore) (k : String) (v : AuditVal) : AuditStore :=
  if st.any (fun p => p.1 == k) then
    st.map (fun p => if p.1 == k then (k, v) else p)
  else
    st ++ [(k, v)]

end AuditStore

/-- `Database`: the engine state.  `dbAudit = none` corresponds to
`self._db_audit is None`. -/
structure DB where
  dbStorage : Store
  auditEnabled : Bool
  dbAudit : Option AuditStore

/-- `Database.__init__(audit_enabled)` with default `MemoryStorage`
backends: when auditing is enabled the audit store is created and its
`_min_id`/`_max_id` sentinels are initialized to `"0"`. -/
def initDB (auditEnabled : Bool) : DB :=
  { dbStorage := []
    auditEnabled := auditEnabled
    dbAudit :=
      if auditEnabled then
        some [("_min_id", .raw "0"), ("_max_id", .raw "0")]
      else
        none }

namespace DB

/-- `int(s)` on the decimal counter strings the engine writes.  (On the
strings produced by the engine itself — `str` of an `int` — the fallback is
never taken.) -/
def rawInt (v : Option AuditVal) : Int :=
  match v with
  | some (.raw s) => (strToInt? s).getD 0
  | _ => 0

/-- `Database._audit(op, key, data)`: when an audit store exists and
auditing is enabled, read `_max_id`, insert the record under that decimal
key, and bump `_max_id`.  `now` is the wall-clock timestamp in ms. -/
def auditOp (db : DB) (op key : String) (payload : Option SVal) (now : Int) : DB :=
  match db.dbAudit with
  | some aud =>
      if db.auditEnabled then
        let idS : String := match aud.get "_max_id" with
          | some (.raw s) => s
          | _ => ""
        let aud := aud.insert idS (.entry op now key payload)
        let aud := aud.insert "_max_id" (.raw (toString ((strToInt? idS).getD 0 + 1)))
        { db with dbAudit := some aud }
      else db
  | none => db

/-- `Database.save(type_name, id, data)`. -/
def save (db : DB) (typeName id : String) (data : Json) (now : Int) : DB :=
  let key := typeName ++ "@" ++ id
  let db' : DB := { db with dbStorage := db.dbStorage.insert key (.js data) }
  db'.auditOp "save" key (some (.js data)) now

/-- `Database.load(type_name, id)`: returns the parsed value, or `None`.
(Engine-written primary values are always JSON-encoded and their encoded
strings are nonempty, so the `if data:` truthiness test succeeds exactly
when the key is present.) -/
def load (db : DB) (typeName id : String) : Option Json :=
  match db.dbStorage.get (typeName ++ "@" ++ id) with
  | some (.js j) => some j
  | _ => none

/-- `Database.delete(type_name, entity_id)`: reads the stored value, removes
the key (raising `KeyError` when absent — nothing has been mutated at that
point), then audits. -/
def delete (db : DB) (typeName entityId : String) (now : Int) : DB × Option String :=
  let key := typeName ++ "@" ++ entityId
  let data := db.dbStorage.get key
  match db.dbStorage.remove key with
  | none => (db, some "KeyError")
  | some st =>
      let db' : DB := { db with dbStorage := st }
      ((db'.auditOp "delete" key data now), none)

/-- `Database.update(type_name, id, field, value)`: load-mutate-save.  When
the key is absent (or the stored dict is falsy) nothing happens.  Note that
the nested `save` appends its own audit record before the `update` record
is appended. -/
def update (db : DB) (typeName id field : String) (value : Json) (now : Int) : DB :=
  match db.load typeName id with
  | some data =>
      if data.truthy then
        let data' := data.objSet field value
        let db' := db.save typeName id data' now
        db'.auditOp "update" (typeName ++ "@" ++ id) (some (.js data')) now
      else db
  | none => db

/-- `Database.get_audit(id_from, id_to)`: entries between the ids, in range
order (a Python dict built in insertion order).  A `None` or `0` argument
falls back to the stored `_min_id`/`_max_id` (Python `or` treats `0` as
falsy). -/
def getAudit (db : DB) (idFrom idTo : Option Int) : List (String × AuditVal) :=
  match db.dbAudit with
  | none => []
  | some aud =>
      let f : Int := match idFrom with
        | none => rawInt (aud.get "_min_id")
        | some n => if n = 0 then rawInt (aud.get "_min_id") else n
      let t : Int := match idTo with
        | none => rawInt (aud.get "_max_id")
        | some n => if n = 0 then rawInt (aud.get "_max_id") else n
      (List.range (t - f).toNat).filterMap (fun k =>
        let idS := toString (f + k)
        (aud.get idS).map (fun e => (idS, e)))

end DB

/-- The opcode of an audit record (`""` for the sentinels, which never
appear among numbered records). -/
def auditOpcode : AuditVal → String
  | .entry op _ _ _ => op
  | .raw _ => ""

/-- The sequence id of a returned audit record: its decimal key. -/
def auditSeqId (p : String × AuditVal) : Int :=
  (strToInt? p.1).getD 0

end KSDB

namespace KSDB

/-! ## The audit scenario (claim C1) and engine `update` framing (claim C9) -/

/-- `save`, then `update`, then `delete` on one key `t@i`, starting from a
fresh audit-enabled database; `n1 n2 n3` are the wall-clock timestamps of
the three calls. -/
def auditRun (t i : String) (d : Json) (f : String) (v : Json) (n1 n2 n3 : Int) : DB :=
  (((initDB true).save t i d n1).update t i f v n2).delete t i n3 |>.1

theorem strToInt_0 : strToInt? "0" = some 0 := by decide

theorem strToInt_1 : strToInt? "1" = some 1 := by decide

theorem strToInt_2 : strToInt? "2" = some 2 := by decide

theorem strToInt_3 : strToInt? "3" = some 3 := by decide

theorem toStringInt_0 : toString (0 : Int) = "0" := by decide

theorem toStringInt_1 : toString (1 : Int) = "1" := by decide

theorem toStringInt_2 : toString (2 : Int) = "2" := by decide

theorem toStringInt_3 : toString (3 : Int) = "3" := by decide

theorem toStringInt_4 : toString (4 : Int) = "4" := by decide

theorem range_4 : List.range 4 = [0, 1, 2, 3] := by decide

set_option maxHeartbeats 2000000 in
/-- The explicit final state of the save/update/delete run: the engine's
`update` first persists through the nested `save` (appending a `save` audit
record) and then appends its own `update` record, so four audit records
exist, under keys `"0"`–`"3"`, with `_max_id = "4"`. -/
theorem auditRun_eq (t i : String) (fs : List (String × Json)) (f : String)
    (v : Json) (n1 n2 n3 : Int) (h : fs ≠ []) :
    auditRun t i (.obj fs) f v n1 n2 n3 =
      { dbStorage := []
        auditEnabled := true
        dbAudit := some
          [("_min_id", .raw "0"), ("_max_id", .raw "4"),
           ("0", .entry "save" n1 (t ++ "@" ++ i) (some (.js (.obj fs)))),
           ("1", .entry "save" n2 (t ++ "@" ++ i) (some (.js ((Json.obj fs).objSet f v)))),
           ("2", .entry "update" n2 (t ++ "@" ++ i) (some (.js ((Json.obj fs).objSet f v)))),
           ("3", .entry "delete" n3 (t ++ "@" ++ i) (some (.js ((Json.obj fs).objSet f v))))] } := by
  simp [auditRun, initDB, DB.save, DB.update, DB.load, DB.delete, DB.auditOp,
    DB.rawInt, Store.get, Store.insert, Store.remove, AuditStore.get, AuditStore.insert,
    Json.truthy, h, strToInt_0, strToInt_1, strToInt_2, strToInt_3,
    toStringInt_1, toStringInt_2, toStringInt_3, toStringInt_4]

/-- Claim C1, counterexample: with auditing enabled, after `save`, `update`,
`delete` on the single key `User@1`, `getAudit(0,3)` does **not** return
records with opcodes `[save, update, delete]` — the engine's `update`
audits an extra inner `save` first, so the opcodes are
`[save, save, update]`. -/
theorem C1_counterexample :
    ¬ (((auditRun "User" "1" (.obj [("x", .num 1)]) "x" (.num 2) 0 0 0).getAudit
        (some 0) (some 3)).map (fun p => auditOpcode p.2) = ["save", "update", "delete"]) := by
  decide

/-- Claim C1, amended: with auditing enabled and an empty audit log,
`save`, `update`, `delete` on one key append **four** audit records (the
engine's `update` also audits the nested `save`), and `getAudit(0,4)`
returns exactly 4 records with strictly increasing sequence ids and
opcodes `[save, save, update, delete]`. -/
theorem C1_audit_sequence (t i : String) (fs : List (String × Json)) (f : String)
    (v : Json) (n1 n2 n3 : Int) (h : fs ≠ []) :
    ((auditRun t i (.obj fs) f v n1 n2 n3).getAudit (some 0) (some 4)).length = 4 ∧
    ((auditRun t i (.obj fs) f v n1 n2 n3).getAudit (some 0) (some 4)).map
        (fun p => auditOpcode p.2) = ["save", "save", "update", "delete"] ∧
    (((auditRun t i (.obj fs) f v n1 n2 n3).getAudit (some 0) (some 4)).map
        auditSeqId).Chain' (· < ·) := by
  rw [auditRun_eq t i fs f v n1 n2 n3 h]
  simp [DB.getAudit, DB.rawInt, AuditStore.get, strToInt_0, strToInt_1, strToInt_2,
    strToInt_3, toStringInt_0, toStringInt_1, toStringInt_2, toStringInt_3, range_4,
    auditOpcode, auditSeqId, List.Chain']

/-- Claim C1, witness: the amended audit-sequence theorem evaluated at the
concrete run on key `User@1`. -/
theorem C1_audit_sequence_witness :
    ([(("x" : String), Json.num 1)] ≠ ([] : List (String × Json))) ∧
    (((auditRun "User" "1" (.obj [("x", .num 1)]) "x" (.num 2) 0 0 0).getAudit
        (some 0) (some 4)).length = 4 ∧
    ((auditRun "User" "1" (.obj [("x", .num 1)]) "x" (.num 2) 0 0 0).getAudit
        (some 0) (some 4)).map (fun p => auditOpcode p.2) =
        ["save", "save", "update", "delete"] ∧
    (((auditRun "User" "1" (.obj [("x", .num 1)]) "x" (.num 2) 0 0 0).getAudit
        (some 0) (some 4)).map auditSeqId).Chain' (· < ·)) :=
  ⟨by simp, C1_audit_sequence "User" "1" [("x", .num 1)] "x" (.num 2) 0 0 0 (by simp)⟩

/-- Claim C9: `Database.update` on a key with no stored record is a silent
no-op — it returns no error (the model's `update` is total), writes nothing
to the primary store, and appends no audit record: the whole database state
is unchanged. -/
theorem C9_update_missing_noop (db : DB) (t i f : String) (v : Json) (now : Int)
    (h : db.dbStorage.get (t ++ "@" ++ i) = none) :
    db.update t i f v now = db := by
  unfold DB.update DB.load
  rw [h]

/-- Claim C9, witness: `update` on the empty fresh database leaves it
unchanged. -/
theorem C9_update_missing_noop_witness :
    (initDB true).dbStorage.get ("User" ++ "@" ++ "1") = none ∧
    (initDB true).update "User" "1" "f" (.num 1) 0 = initDB true :=
  ⟨rfl, C9_update_missing_noop (initDB true) "User" "1" "f" (.num 1) 0 rfl⟩

end KSDB

namespace KSDB

/-! ## Hook gate and the property system (`hooks.py`, `properties.py`) -/

/-- A Python value held by a typed property: `None`, a string, an int or a
bool.  (`Float` properties are omitted: floating point is outside the
embedding and no claim exercises them.) -/
inductive PyVal where
  | none
  | str (s : String)
  | int (n : Int)
  | bool (b : Bool)
deriving DecidableEq, Repr

/-- The action passed to an entity hook. -/
inductive Action where
  | create
  | modify
  | del
deriving DecidableEq, Repr

/-- The shape of the value returned by a user `on_event` hook, as far as
`call_entity_hook`'s `isinstance` tests can see it: a bool, a 2-tuple
`(allow, modified_value)`, or anything else (including tuples of other
lengths). -/
inductive HookRet (α : Type) where
  | retBool (b : Bool)
  | retPair (allow : Bool) (v : α)
  | retOther
deriving DecidableEq, Repr

/-- A class-level `on_event` hook: called with (field name, old value, new
value, action); the entity argument is captured by the closure.  `none`
models a class with no callable `on_event` attribute. -/
abbrev Hook (α : Type) := Option (Option String → α → α → Action → HookRet α)

/-- `call_entity_hook(entity, field_name, old_value, new_value, action)`:
dispatches to the class hook when one is defined and interprets its result;
a missing hook, or a result that is neither a bool nor a 2-tuple, allows
the change with the proposed value unchanged. -/
def callEntityHook {α : Type} (hook : Hook α) (fieldName : Option String)
    (old new : α) (action : Action) : Bool × α :=
  match hook with
  | some h =>
      match h fieldName old new action with
      | .retPair allow v => (allow, v)
      | .retBool b => (b, new)
      | .retOther => (true, new)
  | Option.none => (true, new)

/-- The semantic type of a property (`Property.type`).  `Float` is omitted
(see `PyVal`). -/
inductive PType where
  | str
  | int
  | bool
deriving DecidableEq, Repr

/-- Python `isinstance(value, type)` for property values; note that a
Python `bool` is an instance of `int`. -/
def isInstanceOf : PyVal → PType → Bool
  | .str _, .str => true
  | .int _, .int => true
  | .bool _, .bool => true
  | .bool _, .int => true
  | _, _ => false

/-- Python `str.lower()` (sufficient for the ASCII tokens the bool coercion
compares against). -/
def pyLower (s : String) : String :=
  ⟨s.data.map Char.toLower⟩

/-- The errors a property mutation can raise. -/
inductive PErr where
  | valueError
  | typeError
deriving DecidableEq, Repr

/-- A property declaration: name, semantic type, default and optional
validator (`String`/`Integer` always install a length/range validator). -/
structure PropDef where
  name : String
  ptype : PType
  default : PyVal
  validator : Option (PyVal → Bool)

/-- Python dict write `d[k] = v` on an association list. -/
def pyDictSet {α : Type} (d : List (String × α)) (k : String) (v : α) :
    List (String × α) :=
  if d.any (fun p => p.1 == k) then
    d.map (fun p => if p.1 == k then (k, v) else p)
  else
    d ++ [(k, v)]

/-- Python dict read `d.get(k)`. -/
def pyDictGet {α : Type} (d : List (String × α)) (k : String) : Option α :=
  (d.find? (fun p => p.1 == k)).map Prod.snd

/-- The slice of an entity the property system touches: its `_prop_*`
slots, its `_loaded` flag and its class hook. -/
structure PEntity where
  props : List (String × PyVal)
  loaded : Bool
  hook : Hook PyVal

/-- An entity together with its persisted record: `_save` (when not
suppressed) re-serializes the entity into the store. -/
structure PWorld where
  ent : PEntity
  saved : Option (List (String × PyVal))

/-- The type-coercion step of `Property.__set__` for a non-`None` value
that failed `isinstance`: a string supplied for an `int`/`bool` property is
coerced (`int(value)`, or the truthy-token test for bools); everything else
is a `TypeError`. -/
def coerceValue (pt : PType) (v : PyVal) : Except PErr PyVal :=
  if isInstanceOf v pt then .ok v
  else
    match v, pt with
    | .str s, .bool => .ok (.bool (decide (pyLower s ∈ ["true", "1", "yes", "on"])))
    | .str s, .int =>
        match strToInt? s with
        | some n => .ok (.int n)
        | Option.none => .error .typeError
    | _, _ => .error .typeError

/-- The post-hook checks of `Property.__set__` on the (possibly
hook-rewritten) value: `None` skips them; otherwise coerce, then apply the
validator when one is installed. -/
def checkedValue (pd : PropDef) (v : PyVal) : Except PErr PyVal :=
  if v = .none then .ok v
  else
    match coerceValue pd.ptype v with
    | .error e => .error e
    | .ok v' =>
        match pd.validator with
        | some f => if ¬ f v' then .error .valueError else .ok v'
        | Option.none => .ok v'

/-- `Property.__set__(obj, value)`: read the old value, determine the
action, run the hook gate (`if not allow: raise ValueError`), then the
`checkedValue` steps, and only then commit the slot and re-save the owning
entity.  The returned world is the state at return/raise time: every
`raise` happens before any slot write, so the input world is returned with
the error. -/
def propertySet (pd : PropDef) (w : PWorld) (value : PyVal) :
    PWorld × Option PErr :=
  let slot := "_prop_" ++ pd.name
  let old := (pyDictGet w.ent.props slot).getD pd.default
  let action : Action := if ¬ w.ent.loaded then .create else .modify
  match callEntityHook w.ent.hook (some pd.name) old value action with
  | (false, _) => (w, some .valueError)
  | (true, v) =>
      match checkedValue pd v with
      | .error e => (w, some e)
      | .ok v' =>
          let props' := pyDictSet w.ent.props slot v'
          let ent' : PEntity := { w.ent with props := props' }
          ({ ent := ent', saved := some props' }, none)

/-- Claim C10: when an entity class defines no `on_event` hook, or its hook
returns a value that is neither a bool nor a 2-tuple, `call_entity_hook`
allows the mutation with the proposed new value unchanged. -/
theorem C10_hook_default_allows {α : Type} (hook : Hook α)
    (fieldName : Option String) (old new : α) (action : Action)
    (h : hook = Option.none ∨
         ∃ f, hook = some f ∧ f fieldName old new action = .retOther) :
    callEntityHook hook fieldName old new action = (true, new) := by
  rcases h with h | ⟨f, hf, hret⟩
  · simp [callEntityHook, h]
  · simp [callEntityHook, hf, hret]

/-- Claim C10, witness: the missing-hook case evaluated at a concrete
field update. -/
theorem C10_hook_default_allows_witness :
    ((Option.none : Hook PyVal) = Option.none ∨
      ∃ f, (Option.none : Hook PyVal) = some f ∧
        f (some "name") (PyVal.str "a") (PyVal.str "b") .modify = .retOther) ∧
    callEntityHook (Option.none : Hook PyVal) (some "name") (PyVal.str "a")
      (PyVal.str "b") .modify = (true, PyVal.str "b") :=
  ⟨Or.inl rfl,
   C10_hook_default_allows Option.none (some "name") (PyVal.str "a")
     (PyVal.str "b") .modify (Or.inl rfl)⟩

end KSDB

namespace KSDB

/-! ## The relationship system (`entity.py` relations, `properties.py`) -/

/-- The identity of an entity instance: `Entity.__eq__`/`__hash__` compare
`(self._type, self._id)`, so `(qualified type, id)` is what the relation
lists and Python sets actually distinguish. -/
structure EntityId where
  ty : String
  id : String
deriving DecidableEq, Repr

/-- The in-memory object graph: every live instance's `_relations` entry
for every relation name.  A missing dict key and an empty list are merged
(`get_relations` treats them identically; see `detachStep` for the one
unguarded access). -/
def Heap : Type := EntityId → String → List EntityId

/-- Overwrite one entity's edge list for one relation name. -/
def Heap.set (h : Heap) (e : EntityId) (n : String) (l : List EntityId) : Heap :=
  fun e' n' => if e' = e ∧ n' = n then l else h e' n'

/-- `Entity.get_relations(relation_name)` (no type filter): the edge list,
`[]` when the relation has never been touched. -/
def getRelations (h : Heap) (e : EntityId) (n : String) : List EntityId :=
  h e n

/-- Python `list.remove(x)`: removes the first occurrence, or raises
`ValueError` (modelled as `none`) when absent. -/
def pyListRemove {α : Type} [DecidableEq α] (l : List α) (x : α) : Option (List α) :=
  if x ∈ l then some (l.erase x) else none

/-- One guarded append: `if other not in self._relations[rel]:` append it
(the missing-key case materializes an empty list first). -/
def appendEdge (h : Heap) (a : EntityId) (n : String) (b : EntityId) : Heap :=
  if b ∈ h a n then h else h.set a n (h a n ++ [b])

/-- One guarded removal: `if other in self._relations[rel]:` remove it. -/
def eraseEdge (h : Heap) (a : EntityId) (n : String) (b : EntityId) : Heap :=
  if b ∈ h a n then h.set a n ((h a n).erase b) else h

/-- `Entity.add_relation(from_rel, to_rel, other)`: append `other` to the
forward list if absent, then append `self` to `other`'s reverse list if
absent, then save both entities (`_save` serializes; it never modifies any
`_relations`, so it is the identity on the heap). -/
def addRelation (h : Heap) (a : EntityId) (fromRel toRel : String) (b : EntityId) : Heap :=
  appendEdge (appendEdge h a fromRel b) b toRel a

/-- `Entity.remove_relation(from_rel, to_rel, other)`: remove `other` from
the forward list if present, then `self` from the reverse list if present,
then save both. -/
def removeRelation (h : Heap) (a : EntityId) (fromRel toRel : String) (b : EntityId) : Heap :=
  eraseEdge (eraseEdge h a fromRel b) b toRel a

/-- The errors a relation mutation can raise. -/
inductive RErr where
  | notFound      -- resolve_entity: no entity of the declared types has this id/alias
  | typeMismatch  -- validate_entity: entity of a type outside the declared types
  | badReverse    -- the reverse property is missing or of the wrong relation kind
  | removeMiss    -- an unguarded `_relations[...]`/`list.remove` miss during detach
deriving DecidableEq, Repr

/-- The single-owner detach inside `Relation.__set__` (OneToMany branch)
and `RelationList.add`: a newly added `ent` that already belongs to a
different owner is removed from that owner's forward list and the owner is
removed from `ent`'s reverse list.  These two accesses are the source's
only unguarded dict/`list.remove` accesses (`KeyError`/`ValueError` when
missing, both mapped to `removeMiss`). -/
def detachStep (h : Heap) (obj : EntityId) (name revName : String) (ent : EntityId) :
    Heap × Option RErr :=
  match getRelations h ent revName with
  | [] => (h, Option.none)
  | old :: _ =>
      if old = obj then (h, Option.none)
      else
        match pyListRemove (h old name) ent with
        | Option.none => (h, some .removeMiss)
        | some l' =>
            let h1 := h.set old name l'
            match pyListRemove (h1 ent revName) old with
            | Option.none => (h1, some .removeMiss)
            | some l2' => (h1.set ent revName l2', Option.none)

/-- One iteration of the `for entity in new:` detach loop of
`Relation.__set__`: an exception raised by an earlier iteration aborts the
loop (the error, once present, is carried through unchanged). -/
def detachFoldStep (obj : EntityId) (name revName : String)
    (acc : Heap × Option RErr) (ent : EntityId) : Heap × Option RErr :=
  match acc with
  | (h', some e) => (h', some e)
  | (h', Option.none) => detachStep h' obj name revName ent

/-- `Relation.__set__(obj, values_list)` after resolution: snapshot the
existing edge set, detach each new entity from its previous owner when the
property is a `OneToMany`, then apply the set difference — removals first,
additions second, each through `remove_relation`/`add_relation`.  Python
set iteration order is unspecified; the model iterates each set in a fixed
duplicate-free order (all consequences proved are order-independent). -/
def relationSetCore (isOneToMany : Bool) (h : Heap) (obj : EntityId)
    (name revName : String) (valuesList : List EntityId) : Heap × Option RErr :=
  let existing := (getRelations h obj name).dedup
  let newSet := valuesList.dedup
  let afterDetach : Heap × Option RErr :=
    if isOneToMany then
      newSet.foldl (detachFoldStep obj name revName) (h, Option.none)
    else (h, Option.none)
  match afterDetach with
  | (h', some e) => (h', some e)
  | (h', Option.none) =>
      let toRemove := existing.filter (fun e => ! valuesList.contains e)
      let h2 := toRemove.foldl (fun hh ent => removeRelation hh obj name revName ent) h'
      let toAdd := newSet.filter (fun e => ! existing.contains e)
      (toAdd.foldl (fun hh ent => addRelation hh obj name revName ent) h2, Option.none)

/-- The kind of a class-level property, as the `isinstance` checks on
reverse properties see it. -/
inductive PropKind where
  | plain
  | oneToOne
  | oneToMany
  | manyToOne
  | manyToMany
deriving DecidableEq, Repr

/-- The class environment a relation mutation consults: `getitem ty k`
models `entity_class[k]` (registry lookup by id, then by alias) for a
registered class, `none` when the class is unregistered or nothing is
found; `propKind ty p` models `cls.__dict__.get(p)` on the class of an
entity of type `ty`. -/
structure RelEnv where
  getitem : String → String → Option EntityId
  propKind : String → String → Option PropKind

/-- A loose relation reference: an entity instance, or a string id/alias.
(`None` assignments are outside the model: no claim exercises them.) -/
inductive RelRef where
  | inst (e : EntityId)
  | key (s : String)

/-- `Relation.resolve_entity`: an instance resolves to itself; a string is
tried against each declared target type in order (`entity_class[value]`),
and a miss on every type raises `ValueError`. -/
def resolveEntity (env : RelEnv) (entityTypes : List String) :
    RelRef → Except RErr EntityId
  | .inst e => .ok e
  | .key s =>
      match entityTypes.findSome? (fun t => env.getitem t s) with
      | some e => .ok e
      | Option.none => .error .notFound

/-- The suffix of a qualified type name after its last `::` (the bare class
name), or the whole name when it has no namespace. -/
def afterColons? : List Char → Option (List Char)
  | [] => Option.none
  | ':' :: ':' :: rest => some ((afterColons? rest).getD rest)
  | _ :: rest => afterColons? rest

/-- `t.split("::")[-1]` for the namespace check in `validate_entity`. -/
def classNameOf (t : String) : String :=
  match afterColons? t.data with
  | some r => ⟨r⟩
  | Option.none => t

/-- `Relation.validate_entity`: the entity's qualified type must be among
the declared target types, or at least match one of them by bare class
name. -/
def validateEntity (allowed : List String) (e : EntityId) : Bool :=
  if e.ty ∈ allowed then true
  else allowed.any (fun t => classNameOf e.ty == classNameOf t)

/-- One iteration of the resolve-and-validate loop shared by
`OneToMany.__set__` and `ManyToMany.__set__`: resolve the element, validate
its type, and require the reverse property to be of the required kind; a
failure aborts the whole assignment before any mutation. -/
def resolveStep (env : RelEnv) (entityTypes : List String) (requiredKind : PropKind)
    (revName : String) (acc : List EntityId) (v : RelRef) :
    Except RErr (List EntityId) :=
  match resolveEntity env entityTypes v with
  | .error e => .error e
  | .ok r =>
      if ¬ validateEntity entityTypes r then .error .typeMismatch
      else if env.propKind r.ty revName ≠ some requiredKind then .error .badReverse
      else .ok (acc ++ [r])

/-- `OneToMany.__set__(obj, values)`: resolve and validate every element
and check every reverse property is a `ManyToOne` — all before any
mutation — then run the generic set algorithm with the single-owner
detach enabled. -/
def oneToManySet (env : RelEnv) (h : Heap) (obj : EntityId) (name revName : String)
    (entityTypes : List String) (values : List RelRef) : Heap × Option RErr :=
  match values.foldlM (resolveStep env entityTypes .manyToOne revName) [] with
  | .error e => (h, some e)
  | .ok resolved => relationSetCore true h obj name revName resolved

/-- `ManyToMany.__set__(obj, values)` (already in list form): resolve,
validate and check every reverse property is a `ManyToMany`, then run the
generic set algorithm (no detach). -/
def manyToManySet (env : RelEnv) (h : Heap) (obj : EntityId) (name revName : String)
    (entityTypes : List String) (values : List RelRef) : Heap × Option RErr :=
  match values.foldlM (resolveStep env entityTypes .manyToMany revName) [] with
  | .error e => (h, some e)
  | .ok resolved => relationSetCore false h obj name revName resolved

/-- `ManyToOne.__set__(obj, value)` for a non-`None` value: resolve,
validate, require the reverse property to exist and be a `OneToMany`, then
run the generic single-value set (no detach). -/
def manyToOneSet (env : RelEnv) (h : Heap) (obj : EntityId) (name revName : String)
    (entityTypes : List String) (value : RelRef) : Heap × Option RErr :=
  match resolveEntity env entityTypes value with
  | .error e => (h, some e)
  | .ok r =>
      if ¬ validateEntity entityTypes r then (h, some .typeMismatch)
      else
        match env.propKind r.ty revName with
        | some .oneToMany => relationSetCore false h obj name revName [r]
        | _ => (h, some .badReverse)

/-- `OneToOne.__set__(obj, value)` for a non-`None` value: resolve, require
a `OneToOne` reverse property, detach `obj`'s current partner and the new
target's pre-existing partner on both sides, then run the generic
single-value set.  (`OneToOne` performs no `validate_entity` call.) -/
def oneToOnePreDetach (h : Heap) (obj target : EntityId)
    (name revName : String) : Heap :=
  let h1 :=
    match (getRelations h obj name).head? with
    | some current => removeRelation h obj name revName current
    | Option.none => h
  match getRelations h1 target revName with
  | [] => h1
  | ex :: _ =>
      removeRelation (removeRelation h1 ex name revName target) target revName name ex

/-- The body of `OneToOne.__set__` continues here (doc above shared with
`oneToOnePreDetach`): after the pre-detach, the generic single-value set. -/
def oneToOneSet (env : RelEnv) (h : Heap) (obj : EntityId) (name revName : String)
    (entityTypes : List String) (value : RelRef) : Heap × Option RErr :=
  match resolveEntity env entityTypes value with
  | .error e => (h, some e)
  | .ok r =>
      match env.propKind r.ty revName with
      | some .oneToOne =>
          relationSetCore false (oneToOnePreDetach h obj r name revName)
            obj name revName [r]
      | _ => (h, some .badReverse)

/-- `RelationList.add(entity)` (the mutating `add` on a `OneToMany` /
`ManyToMany` relation list): resolve, validate, detach from a previous
owner when the property is a `OneToMany`, then `add_relation`. -/
def relationListAdd (env : RelEnv) (isOneToMany : Bool) (h : Heap) (obj : EntityId)
    (name revName : String) (entityTypes : List String) (value : RelRef) :
    Heap × Option RErr :=
  match resolveEntity env entityTypes value with
  | .error e => (h, some e)
  | .ok r =>
      if ¬ validateEntity entityTypes r then (h, some .typeMismatch)
      else if isOneToMany then
        match detachStep h obj name revName r with
        | (h', some e) => (h', some e)
        | (h', Option.none) => (addRelation h' obj name revName r, Option.none)
      else (addRelation h obj name revName r, Option.none)

/-- `Relation.__get__` for a single-valued relation (`many = False`): the
first related entity, or `None`. -/
def relationGetSingle (h : Heap) (e : EntityId) (name : String) : Option EntityId :=
  (getRelations h e name).head?

/-- One relation mutation: `add_relation` / `remove_relation` (also
reached through `RelationList.remove`), a `RelationList.add`, or an
assignment through any of the four relation kinds.  The relation pair
`(name, reverse name)` is supplied by `applyRelMutation`. -/
inductive RelMutation where
  | addRel (a b : EntityId)
  | removeRel (a b : EntityId)
  | listAdd (env : RelEnv) (isOneToMany : Bool) (obj : EntityId)
      (types : List String) (v : RelRef)
  | setO2O (env : RelEnv) (obj : EntityId) (types : List String) (v : RelRef)
  | setM2O (env : RelEnv) (obj : EntityId) (types : List String) (v : RelRef)
  | setO2M (env : RelEnv) (obj : EntityId) (types : List String) (vs : List RelRef)
  | setM2M (env : RelEnv) (obj : EntityId) (types : List String) (vs : List RelRef)

/-- Run one relation mutation on the heap for the relation pair `(n, r)`. -/
def applyRelMutation (n r : String) (h : Heap) : RelMutation → Heap × Option RErr
  | .addRel a b => (addRelation h a n r b, Option.none)
  | .removeRel a b => (removeRelation h a n r b, Option.none)
  | .listAdd env otm obj ts v => relationListAdd env otm h obj n r ts v
  | .setO2O env obj ts v => oneToOneSet env h obj n r ts v
  | .setM2O env obj ts v => manyToOneSet env h obj n r ts v
  | .setO2M env obj ts vs => oneToManySet env h obj n r ts vs
  | .setM2M env obj ts vs => manyToManySet env h obj n r ts vs

/-- Symmetric well-formedness of the heap for the relation pair `(n, r)`:
edges named `n` and edges named `r` mirror each other and no edge list has
duplicates (the state every entity starts in — `_relations = {}` — and, as
proved below, the state every mutation preserves). -/
structure SymWF (h : Heap) (n r : String) : Prop where
  symNR : ∀ a b, b ∈ h a n → a ∈ h b r
  symRN : ∀ a b, b ∈ h a r → a ∈ h b n
  nodupN : ∀ e, (h e n).Nodup
  nodupR : ∀ e, (h e r).Nodup

end KSDB

namespace KSDB

theorem mem_appendEdge {h : Heap} {a b x y : EntityId} {n m : String} :
    y ∈ appendEdge h a n b x m ↔ y ∈ h x m ∨ (x = a ∧ m = n ∧ y = b) := by
  unfold appendEdge Heap.set
  by_cases c1 : b ∈ h a n
  · simp only [if_pos c1]
    constructor
    · exact Or.inl
    · rintro (hy | ⟨rfl, rfl, rfl⟩) <;> assumption
  · simp only [if_neg c1]
    by_cases c2 : x = a ∧ m = n
    · obtain ⟨rfl, rfl⟩ := c2
      simp
    · simp only [if_neg c2]
      tauto

theorem nodup_appendEdge {h : Heap} {a b x : EntityId} {n m : String}
    (hnd : (h x m).Nodup) : (appendEdge h a n b x m).Nodup := by
  unfold appendEdge Heap.set
  by_cases c1 : b ∈ h a n
  · simpa only [if_pos c1] using hnd
  · simp only [if_neg c1]
    by_cases c2 : x = a ∧ m = n
    · obtain ⟨rfl, rfl⟩ := c2
      simp [List.nodup_append, hnd, c1]
    · simpa only [if_neg c2] using hnd

theorem mem_eraseEdge {h : Heap} {a b x y : EntityId} {n m : String}
    (hnd : (h a n).Nodup) :
    y ∈ eraseEdge h a n b x m ↔ y ∈ h x m ∧ ¬(x = a ∧ m = n ∧ y = b) := by
  unfold eraseEdge Heap.set
  by_cases c1 : b ∈ h a n
  · simp only [if_pos c1]
    by_cases c2 : x = a ∧ m = n
    · obtain ⟨rfl, rfl⟩ := c2
      simp [hnd.mem_erase_iff]
      tauto
    · simp only [if_neg c2]
      tauto
  · simp only [if_neg c1]
    constructor
    · intro hy
      refine ⟨hy, ?_⟩
      rintro ⟨rfl, rfl, rfl⟩
      exact c1 hy
    · exact fun hy => hy.1

theorem nodup_eraseEdge {h : Heap} {a b x : EntityId} {n m : String}
    (hnd : (h x m).Nodup) : (eraseEdge h a n b x m).Nodup := by
  unfold eraseEdge Heap.set
  by_cases c1 : b ∈ h a n
  · simp only [if_pos c1]
    by_cases c2 : x = a ∧ m = n
    · obtain ⟨rfl, rfl⟩ := c2
      simpa using hnd.erase b
    · simpa only [if_neg c2] using hnd
  · simpa only [if_neg c1] using hnd

theorem mem_addRelation {h : Heap} {a b x y : EntityId} {n r m : String} :
    y ∈ addRelation h a n r b x m ↔
      y ∈ h x m ∨ (x = a ∧ m = n ∧ y = b) ∨ (x = b ∧ m = r ∧ y = a) := by
  unfold addRelation
  rw [mem_appendEdge, mem_appendEdge]
  tauto

theorem nodup_addRelation {h : Heap} {a b x : EntityId} {n r m : String}
    (hnd : (h x m).Nodup) : (addRelation h a n r b x m).Nodup :=
  nodup_appendEdge (nodup_appendEdge hnd)

theorem mem_removeRelation {h : Heap} {a b x y : EntityId} {n r m : String}
    (hndA : (h a n).Nodup) (hndB : (h b r).Nodup) :
    y ∈ removeRelation h a n r b x m ↔
      y ∈ h x m ∧ ¬(x = a ∧ m = n ∧ y = b) ∧ ¬(x = b ∧ m = r ∧ y = a) := by
  unfold removeRelation
  rw [mem_eraseEdge (nodup_eraseEdge hndB), mem_eraseEdge hndA]
  tauto

theorem nodup_removeRelation {h : Heap} {a b x : EntityId} {n r m : String}
    (hnd : (h x m).Nodup) : (removeRelation h a n r b x m).Nodup :=
  nodup_eraseEdge (nodup_eraseEdge hnd)

theorem symWF_addRelation {h : Heap} {n r : String} {a b : EntityId}
    (hw : SymWF h n r) : SymWF (addRelation h a n r b) n r := by
  refine ⟨?_, ?_, fun e => nodup_addRelation (hw.nodupN e),
    fun e => nodup_addRelation (hw.nodupR e)⟩
  · intro p q hq
    rw [mem_addRelation] at hq ⊢
    rcases hq with hq | ⟨rfl, _, rfl⟩ | ⟨rfl, hnr, rfl⟩
    · exact Or.inl (hw.symNR _ _ hq)
    · exact Or.inr (Or.inr ⟨rfl, rfl, rfl⟩)
    · exact Or.inr (Or.inl ⟨rfl, hnr.symm, rfl⟩)
  · intro p q hq
    rw [mem_addRelation] at hq ⊢
    rcases hq with hq | ⟨rfl, hrn, rfl⟩ | ⟨rfl, _, rfl⟩
    · exact Or.inl (hw.symRN _ _ hq)
    · exact Or.inr (Or.inr ⟨rfl, hrn.symm, rfl⟩)
    · exact Or.inr (Or.inl ⟨rfl, rfl, rfl⟩)

theorem symWF_removeRelation {h : Heap} {n r : String} {a b : EntityId}
    (hw : SymWF h n r) : SymWF (removeRelation h a n r b) n r := by
  refine ⟨?_, ?_, fun e => nodup_removeRelation (hw.nodupN e),
    fun e => nodup_removeRelation (hw.nodupR e)⟩
  · intro p q hq
    rw [mem_removeRelation (hw.nodupN a) (hw.nodupR b)] at hq ⊢
    obtain ⟨hmem, hn1, hn2⟩ := hq
    refine ⟨hw.symNR _ _ hmem, ?_, ?_⟩ <;> aesop
  · intro p q hq
    rw [mem_removeRelation (hw.nodupN a) (hw.nodupR b)] at hq ⊢
    obtain ⟨hmem, hn1, hn2⟩ := hq
    refine ⟨hw.symRN _ _ hmem, ?_, ?_⟩ <;> aesop

end KSDB

namespace KSDB

theorem pyListRemove_eq_some {α : Type} [DecidableEq α] {l l' : List α} {x : α}
    (hp : pyListRemove l x = some l') : x ∈ l ∧ l' = l.erase x := by
  unfold pyListRemove at hp
  split_ifs at hp with c
  · cases hp
    exact ⟨c, rfl⟩

theorem symWF_detachStep {h h' : Heap} {obj ent : EntityId} {n r : String}
    (hw : SymWF h n r) (hs : detachStep h obj n r ent = (h', Option.none)) :
    SymWF h' n r := by
  unfold detachStep at hs
  rcases hE : getRelations h ent r with _ | ⟨old, rest⟩ <;> rw [hE] at hs
  · cases hs
    exact hw
  · dsimp only at hs
    split_ifs at hs with hobj
    · cases hs
      exact hw
    · rcases hrm1 : pyListRemove (h old n) ent with _ | l' <;> rw [hrm1] at hs
      · cases hs
      · dsimp only at hs
        rcases hrm2 : pyListRemove ((h.set old n l') ent r) old with _ | l2' <;>
          rw [hrm2] at hs
        · cases hs
        · cases hs
          obtain ⟨hm1, hl'⟩ := pyListRemove_eq_some hrm1
          obtain ⟨hm2, hl2'⟩ := pyListRemove_eq_some hrm2
          have hEq : (Heap.set h old n l').set ent r l2' = removeRelation h old n r ent := by
            unfold removeRelation eraseEdge
            rw [if_pos hm1]
            subst hl'
            rw [if_pos hm2]
            subst hl2'
            rfl
          rw [hEq]
          exact symWF_removeRelation hw

theorem detachStep_error {h h' : Heap} {obj ent : EntityId} {n r : String} {e : RErr}
    (hs : detachStep h obj n r ent = (h', some e)) : e = .removeMiss := by
  unfold detachStep at hs
  rcases hE : getRelations h ent r with _ | ⟨old, rest⟩ <;> rw [hE] at hs
  · cases hs
  · dsimp only at hs
    split_ifs at hs with hobj
    · cases hs
    · rcases hrm1 : pyListRemove (h old n) ent with _ | l' <;> rw [hrm1] at hs
      · cases hs
        rfl
      · dsimp only at hs
        rcases hrm2 : pyListRemove ((h.set old n l') ent r) old with _ | l2' <;>
          rw [hrm2] at hs
        · cases hs
          rfl
        · cases hs

theorem detachFold_error_absorb (obj : EntityId) (n r : String) (l : List EntityId)
    (h : Heap) (e : RErr) :
    l.foldl (detachFoldStep obj n r) (h, some e) = (h, some e) := by
  induction l with
  | nil => rfl
  | cons x xs ih => simpa [detachFoldStep] using ih

theorem symWF_detachFold {obj : EntityId} {n r : String} (l : List EntityId) :
    ∀ h : Heap, SymWF h n r →
      (l.foldl (detachFoldStep obj n r) (h, Option.none)).2 = Option.none →
      SymWF (l.foldl (detachFoldStep obj n r) (h, Option.none)).1 n r := by
  induction l with
  | nil => exact fun h hw _ => hw
  | cons x xs ih =>
      intro h hw hnone
      rw [List.foldl_cons] at hnone ⊢
      rcases hd : detachStep h obj n r x with ⟨h1, e1⟩
      have hstep : detachFoldStep obj n r (h, Option.none) x = (h1, e1) := by
        simpa [detachFoldStep] using hd
      rw [hstep] at hnone ⊢
      cases e1 with
      | none => exact ih h1 (symWF_detachStep hw hd) hnone
      | some e =>
          rw [detachFold_error_absorb] at hnone
          cases hnone

theorem detachFold_error_class {obj : EntityId} {n r : String} (l : List EntityId) :
    ∀ (h : Heap) (h' : Heap) (e : RErr),
      l.foldl (detachFoldStep obj n r) (h, Option.none) = (h', some e) →
      e = .removeMiss := by
  induction l with
  | nil =>
      intro h h' e hs
      cases hs
  | cons x xs ih =>
      intro h h' e hs
      rw [List.foldl_cons] at hs
      rcases hd : detachStep h obj n r x with ⟨h1, e1⟩
      have hstep : detachFoldStep obj n r (h, Option.none) x = (h1, e1) := by
        simpa [detachFoldStep] using hd
      rw [hstep] at hs
      cases e1 with
      | none => exact ih h1 h' e hs
      | some e2 =>
          rw [detachFold_error_absorb] at hs
          cases hs
          exact detachStep_error hd

theorem symWF_removeFold {obj : EntityId} {n r : String} (l : List EntityId) :
    ∀ h : Heap, SymWF h n r →
      SymWF (l.foldl (fun hh ent => removeRelation hh obj n r ent) h) n r := by
  induction l with
  | nil => exact fun _ hw => hw
  | cons x xs ih => exact fun h hw => ih _ (symWF_removeRelation hw)

theorem symWF_addFold {obj : EntityId} {n r : String} (l : List EntityId) :
    ∀ h : Heap, SymWF h n r →
      SymWF (l.foldl (fun hh ent => addRelation hh obj n r ent) h) n r := by
  induction l with
  | nil => exact fun _ hw => hw
  | cons x xs ih => exact fun h hw => ih _ (symWF_addRelation hw)

theorem symWF_relationSetCore {otm : Bool} {h h' : Heap} {obj : EntityId}
    {n r : String} {values : List EntityId}
    (hw : SymWF h n r) (hs : relationSetCore otm h obj n r values = (h', Option.none)) :
    SymWF h' n r := by
  unfold relationSetCore at hs
  cases otm with
  | false =>
      dsimp only [Bool.false_eq_true, if_false] at hs
      cases hs
      exact symWF_addFold _ _ (symWF_removeFold _ _ hw)
  | true =>
      dsimp only [if_true] at hs
      rcases hfd : values.dedup.foldl (detachFoldStep obj n r) (h, Option.none) with ⟨h1, e1⟩
      rw [hfd] at hs
      cases e1 with
      | some e => cases hs
      | none =>
          cases hs
          have hw1 : SymWF h1 n r := by
            have h2 := symWF_detachFold values.dedup h hw (by rw [hfd])
            rwa [hfd] at h2
          exact symWF_addFold _ _ (symWF_removeFold _ _ hw1)

end KSDB

namespace KSDB

theorem relationSetCore_error {otm : Bool} {h h' : Heap} {obj : EntityId}
    {n r : String} {values : List EntityId} {e : RErr}
    (hs : relationSetCore otm h obj n r values = (h', some e)) : e = .removeMiss := by
  unfold relationSetCore at hs
  cases otm with
  | false =>
      dsimp only [Bool.false_eq_true, if_false] at hs
      cases hs
  | true =>
      dsimp only [if_true] at hs
      rcases hfd : values.dedup.foldl (detachFoldStep obj n r) (h, Option.none) with ⟨h1, e1⟩
      rw [hfd] at hs
      cases e1 with
      | some e2 =>
          cases hs
          exact detachFold_error_class _ _ _ _ hfd
      | none => cases hs

theorem symWF_swap {h : Heap} {n r : String} (hw : SymWF h n r) : SymWF h r n :=
  ⟨hw.symRN, hw.symNR, hw.nodupR, hw.nodupN⟩

theorem symWF_oneToOnePreDetach {h : Heap} {obj target : EntityId} {n r : String}
    (hw : SymWF h n r) : SymWF (oneToOnePreDetach h obj target n r) n r := by
  unfold oneToOnePreDetach
  rcases hcur : (getRelations h obj n).head? with _ | current <;> dsimp only
  · rcases hex : getRelations h target r with _ | ⟨ex, rest⟩ <;> dsimp only
    · exact hw
    · exact symWF_swap (symWF_removeRelation (symWF_swap (symWF_removeRelation hw)))
  · rcases hex : getRelations (removeRelation h obj n r current) target r with _ | ⟨ex, rest⟩ <;>
      dsimp only
    · exact symWF_removeRelation hw
    · exact symWF_swap (symWF_removeRelation
        (symWF_swap (symWF_removeRelation (symWF_removeRelation hw))))

theorem symWF_applyRelMutation_eq {n r : String} {h h' : Heap} {m : RelMutation}
    (hw : SymWF h n r) (hobs : applyRelMutation n r h m = (h', Option.none)) :
    SymWF h' n r := by
  cases m with
  | addRel a b =>
      simp only [applyRelMutation] at hobs
      cases hobs
      exact symWF_addRelation hw
  | removeRel a b =>
      simp only [applyRelMutation] at hobs
      cases hobs
      exact symWF_removeRelation hw
  | listAdd env otm obj ts v =>
      simp only [applyRelMutation] at hobs
      unfold relationListAdd at hobs
      rcases hr : resolveEntity env ts v with e1 | e1 <;> rw [hr] at hobs
      · cases hobs
      · dsimp only at hobs
        split at hobs
        · cases hobs
        · split at hobs
          · rcases hd : detachStep h obj n r e1 with ⟨h1, d1⟩ <;> rw [hd] at hobs
            cases d1 with
            | some e2 => cases hobs
            | none =>
                cases hobs
                exact symWF_addRelation (symWF_detachStep hw hd)
          · cases hobs
            exact symWF_addRelation hw
  | setO2O env obj ts v =>
      simp only [applyRelMutation] at hobs
      unfold oneToOneSet at hobs
      rcases hr : resolveEntity env ts v with e1 | e1 <;> rw [hr] at hobs
      · cases hobs
      · dsimp only at hobs
        rcases hk : env.propKind e1.ty r with _ | k <;> rw [hk] at hobs
        · cases hobs
        · cases k
          case plain => cases hobs
          case oneToMany => cases hobs
          case manyToOne => cases hobs
          case manyToMany => cases hobs
          case oneToOne =>
            exact symWF_relationSetCore (symWF_oneToOnePreDetach hw) hobs
  | setM2O env obj ts v =>
      simp only [applyRelMutation] at hobs
      unfold manyToOneSet at hobs
      rcases hr : resolveEntity env ts v with e1 | e1 <;> rw [hr] at hobs
      · cases hobs
      · dsimp only at hobs
        split at hobs
        · cases hobs
        · rcases hk : env.propKind e1.ty r with _ | k <;> rw [hk] at hobs
          · cases hobs
          · cases k
            case plain => cases hobs
            case oneToOne => cases hobs
            case manyToOne => cases hobs
            case manyToMany => cases hobs
            case oneToMany => exact symWF_relationSetCore hw hobs
  | setO2M env obj ts vs =>
      simp only [applyRelMutation] at hobs
      unfold oneToManySet at hobs
      rcases hfm : vs.foldlM (resolveStep env ts .manyToOne r) [] with e1 | resolved <;>
        rw [hfm] at hobs
      · cases hobs
      · exact symWF_relationSetCore hw hobs
  | setM2M env obj ts vs =>
      simp only [applyRelMutation] at hobs
      unfold manyToManySet at hobs
      rcases hfm : vs.foldlM (resolveStep env ts .manyToMany r) [] with e1 | resolved <;>
        rw [hfm] at hobs
      · cases hobs
      · exact symWF_relationSetCore hw hobs

theorem applyRelMutation_error_frame {n r : String} {h h' : Heap} {m : RelMutation}
    {e : RErr} (hobs : applyRelMutation n r h m = (h', some e))
    (hne : e ≠ .removeMiss) : h' = h := by
  cases m with
  | addRel a b => cases hobs
  | removeRel a b => cases hobs
  | listAdd env otm obj ts v =>
      simp only [applyRelMutation] at hobs
      unfold relationListAdd at hobs
      rcases hr : resolveEntity env ts v with e1 | e1 <;> rw [hr] at hobs
      · cases hobs
        rfl
      · dsimp only at hobs
        split at hobs
        · cases hobs
          rfl
        · split at hobs
          · rcases hd : detachStep h obj n r e1 with ⟨h1, d1⟩ <;> rw [hd] at hobs
            cases d1 with
            | some e2 =>
                cases hobs
                exact absurd (detachStep_error hd) hne
            | none => cases hobs
          · cases hobs
  | setO2O env obj ts v =>
      simp only [applyRelMutation] at hobs
      unfold oneToOneSet at hobs
      rcases hr : resolveEntity env ts v with e1 | e1 <;> rw [hr] at hobs
      · cases hobs
        rfl
      · dsimp only at hobs
        rcases hk : env.propKind e1.ty r with _ | k <;> rw [hk] at hobs
        · cases hobs
          rfl
        · cases k
          case plain => cases hobs; rfl
          case oneToMany => cases hobs; rfl
          case manyToOne => cases hobs; rfl
          case manyToMany => cases hobs; rfl
          case oneToOne => exact absurd (relationSetCore_error hobs) hne
  | setM2O env obj ts v =>
      simp only [applyRelMutation] at hobs
      unfold manyToOneSet at hobs
      rcases hr : resolveEntity env ts v with e1 | e1 <;> rw [hr] at hobs
      · cases hobs
        rfl
      · dsimp only at hobs
        split at hobs
        · cases hobs
          rfl
        · rcases hk : env.propKind e1.ty r with _ | k <;> rw [hk] at hobs
          · cases hobs
            rfl
          · cases k
            case plain => cases hobs; rfl
            case oneToOne => cases hobs; rfl
            case manyToOne => cases hobs; rfl
            case manyToMany => cases hobs; rfl
            case oneToMany => exact absurd (relationSetCore_error hobs) hne
  | setO2M env obj ts vs =>
      simp only [applyRelMutation] at hobs
      unfold oneToManySet at hobs
      rcases hfm : vs.foldlM (resolveStep env ts .manyToOne r) [] with e1 | resolved <;>
        rw [hfm] at hobs
      · cases hobs
        rfl
      · exact absurd (relationSetCore_error hobs) hne
  | setM2M env obj ts vs =>
      simp only [applyRelMutation] at hobs
      unfold manyToManySet at hobs
      rcases hfm : vs.foldlM (resolveStep env ts .manyToMany r) [] with e1 | resolved <;>
        rw [hfm] at hobs
      · cases hobs
        rfl
      · exact absurd (relationSetCore_error hobs) hne

theorem propertySet_error_frame {pd : PropDef} {w w' : PWorld} {value : PyVal}
    {e : PErr} (hs : propertySet pd w value = (w', some e)) : w' = w := by
  unfold propertySet at hs
  dsimp only at hs
  split at hs
  · cases hs
    rfl
  · rename_i v
    split at hs
    · cases hs
      rfl
    · cases hs

end KSDB

namespace KSDB

/-! ## Claims C2, C5 and C7 -/

/-- Claim C2: for every relation mutation (assignment through any of the
four relation kinds, `RelationList.add`, or `add_relation`/
`remove_relation`) on a symmetric, duplicate-free heap, if the mutation
returns (raises no error), then the whole heap is again symmetric and
duplicate-free — in particular, for the mutated relation pair, `b` is in
`a`'s edge set for the relation iff `a` is in `b`'s edge set for the
reverse relation, for every `a` and `b`; no one-sided edge is observable
after the mutation completes. -/
theorem C2_relation_symmetry (n r : String) (h : Heap) (m : RelMutation)
    (hw : SymWF h n r) (hs : (applyRelMutation n r h m).2 = Option.none) :
    SymWF (applyRelMutation n r h m).1 n r ∧
    ∀ a b : EntityId,
      b ∈ getRelations (applyRelMutation n r h m).1 a n ↔
        a ∈ getRelations (applyRelMutation n r h m).1 b r := by
  have hobs : applyRelMutation n r h m = ((applyRelMutation n r h m).1, Option.none) := by
    rw [← hs]
  have hwf := symWF_applyRelMutation_eq hw hobs
  exact ⟨hwf, fun a b => ⟨fun hb => hwf.symNR a b hb, fun hb => hwf.symRN b a hb⟩⟩

/-- The class environment of the OneToMany/ManyToOne example pair
(`Department.employees = OneToMany('Employee', 'department')`,
`Employee.department = ManyToOne('Department', 'employees')`). -/
def c7env : RelEnv :=
  { getitem := fun _ _ => Option.none
    propKind := fun ty p =>
      if ty = "Employee" ∧ p = "department" then some .manyToOne
      else if ty = "Department" ∧ p = "employees" then some .oneToMany
      else Option.none }

def dept : EntityId := ⟨"Department", "1"⟩

def dept2 : EntityId := ⟨"Department", "2"⟩

def empA : EntityId := ⟨"Employee", "1"⟩

def empB : EntityId := ⟨"Employee", "2"⟩

/-- The empty heap: every instance starts with `_relations = {}`. -/
def emptyHeap : Heap := fun _ _ => []

/-- `dept.employees = [a, b]` on fresh entities. -/
def c7s1 : Heap × Option RErr :=
  oneToManySet c7env emptyHeap dept "employees" "department" ["Employee"]
    [.inst empA, .inst empB]

/-- ... then `dept2.employees = [a]`. -/
def c7s2 : Heap × Option RErr :=
  oneToManySet c7env c7s1.1 dept2 "employees" "department" ["Employee"] [.inst empA]

/-- Claim C7: after `dept.employees = [a, b]` and then
`dept2.employees = [a]`, both assignments succeed, `a.department == dept2`,
`dept.employees` contains exactly `[b]`, and `dept2.employees` contains
exactly `[a]` — the newly added `a`, which already belonged to `dept`, was
first detached from it. -/
theorem C7_one_to_many_reassignment :
    c7s1.2 = Option.none ∧ c7s2.2 = Option.none ∧
    relationGetSingle c7s2.1 empA "department" = some dept2 ∧
    getRelations c7s2.1 dept "employees" = [empB] ∧
    getRelations c7s2.1 dept2 "employees" = [empA] := by
  refine ⟨by decide, by decide, by decide, by decide, by decide⟩

/-- The empty heap is symmetric and duplicate-free. -/
theorem symWF_emptyHeap (n r : String) : SymWF emptyHeap n r :=
  ⟨fun a b hb => absurd hb (List.not_mem_nil b),
   fun a b hb => absurd hb (List.not_mem_nil b),
   fun _ => List.nodup_nil, fun _ => List.nodup_nil⟩

/-- Claim C2, witness: `add_relation` linking a department and an employee
on the empty heap, with the symmetry of the result evaluated there. -/
theorem C2_relation_symmetry_witness :
    SymWF emptyHeap "employees" "department" ∧
    (applyRelMutation "employees" "department" emptyHeap (.addRel dept empA)).2 =
      Option.none ∧
    (SymWF (applyRelMutation "employees" "department" emptyHeap
        (.addRel dept empA)).1 "employees" "department" ∧
     ∀ a b : EntityId,
       b ∈ getRelations (applyRelMutation "employees" "department" emptyHeap
           (.addRel dept empA)).1 a "employees" ↔
         a ∈ getRelations (applyRelMutation "employees" "department" emptyHeap
             (.addRel dept empA)).1 b "department") :=
  ⟨symWF_emptyHeap _ _, rfl,
   C2_relation_symmetry "employees" "department" emptyHeap (.addRel dept empA)
     (symWF_emptyHeap _ _) rfl⟩

/-- The property declaration of the C5 witness: a `String(min_length=3)`
field named `name` (its validator rejects shorter strings). -/
def c5pd : PropDef :=
  { name := "name"
    ptype := .str
    default := .none
    validator := some (fun v =>
      match v with
      | .str s => decide (3 ≤ s.length)
      | _ => true) }

/-- A fresh entity world for the C5 witness: no slots set, not yet loaded,
no hook, nothing persisted. -/
def c5w : PWorld :=
  { ent := { props := [], loaded := false, hook := Option.none }
    saved := Option.none }

/-- A relation assignment whose reference cannot be resolved (no entity of
type `Employee` has id or alias `"zzz"`). -/
def c5mut : RelMutation :=
  .setO2M c7env dept ["Employee"] [.key "zzz"]

/-- Claim C5: property and relation mutations are all-or-nothing.  (1) Any
failing `Property.__set__` — hook denial, failed coercion, rejected
validation — raises with the owning entity and its persisted record
exactly as they were.  (2) Any relation mutation that raises before its
edge updates begin — an unresolvable reference, a type-validation failure,
or a reverse-property check — leaves the whole heap (the entity and all
its relation partners) unchanged; `removeMiss` is the one error raised
from inside the edge-update phase (the unguarded detach removals, not a
failure mode this claim lists). -/
theorem C5_all_or_nothing :
    (∀ (pd : PropDef) (w : PWorld) (value : PyVal) (w' : PWorld) (e : PErr),
        propertySet pd w value = (w', some e) → w' = w) ∧
    (∀ (n r : String) (h h' : Heap) (m : RelMutation) (e : RErr),
        applyRelMutation n r h m = (h', some e) → e ≠ .removeMiss → h' = h) :=
  ⟨fun _ _ _ _ _ hs => propertySet_error_frame hs,
   fun _ _ _ _ _ _ hobs hne => applyRelMutation_error_frame hobs hne⟩

/-- Claim C5, witness: a validator rejection (`name = "ab"` against
`min_length=3`) and an unresolvable relation reference, both evaluated on
concrete worlds, leave those worlds unchanged. -/
theorem C5_all_or_nothing_witness :
    propertySet c5pd c5w (.str "ab") = (c5w, some PErr.valueError) ∧
    (propertySet c5pd c5w (.str "ab")).1 = c5w ∧
    applyRelMutation "employees" "department" emptyHeap c5mut =
      (emptyHeap, some RErr.notFound) ∧
    (applyRelMutation "employees" "department" emptyHeap c5mut).1 = emptyHeap :=
  ⟨rfl,
   C5_all_or_nothing.1 c5pd c5w (.str "ab") _ PErr.valueError rfl,
   rfl,
   C5_all_or_nothing.2 "employees" "department" emptyHeap _ c5mut RErr.notFound rfl
     (by decide)⟩

end KSDB

namespace KSDB

theorem digitsVal_append (l1 l2 : List Char) (acc : Nat) :
    digitsVal (l1 ++ l2) acc =
      match digitsVal l1 acc with
      | some m => digitsVal l2 m
      | Option.none => Option.none := by
  induction l1 generalizing acc with
  | nil => rfl
  | cons c cs ih =>
      simp only [List.cons_append, digitsVal]
      split_ifs with hc
      · exact ih _
      · rfl

theorem digitChar_isDigit {d : Nat} (hd : d < 10) : (digitChar d).isDigit = true := by
  interval_cases d <;> decide

theorem digitChar_toNat {d : Nat} (hd : d < 10) : (digitChar d).toNat - 48 = d := by
  interval_cases d <;> decide

theorem digitChar_ne_dash {d : Nat} (hd : d < 10) : digitChar d ≠ '-' := by
  interval_cases d <;> decide

theorem digitsVal_natDigits :
    ∀ (fuel n acc : Nat), n < fuel →
      digitsVal (natDigits fuel n) acc =
        some (acc * 10 ^ (natDigits fuel n).length + n) := by
  intro fuel
  induction fuel with
  | zero => intro n acc h; omega
  | succ fuel ih =>
      intro n acc h
      unfold natDigits
      split_ifs with h10
      · simp [digitsVal, digitChar_isDigit h10, digitChar_toNat h10]
      · have hpos : 0 < n := by omega
        have hlt : n / 10 < fuel := by
          have hd := Nat.div_lt_self hpos (by omega : 1 < 10)
          omega
        rw [digitsVal_append, ih (n / 10) acc hlt]
        have hm : n % 10 < 10 := Nat.mod_lt _ (by omega)
        simp only [digitsVal, digitChar_isDigit hm, if_true, digitChar_toNat hm,
          List.length_append, List.length_singleton]
        have hdm : n / 10 * 10 + n % 10 = n := by omega
        have hp : 10 ^ ((natDigits fuel (n / 10)).length + 1) =
            10 ^ (natDigits fuel (n / 10)).length * 10 := by
          rw [pow_succ]
        congr 1
        rw [hp]
        ring_nf
        omega

theorem natDigits_ne_nil (fuel n : Nat) (h : n < fuel) :
    natDigits fuel n ≠ [] := by
  cases fuel with
  | zero => omega
  | succ fuel =>
      unfold natDigits
      split_ifs with h10
      · simp
      · simp

theorem natDigits_digits :
    ∀ (fuel n : Nat), ∀ c ∈ natDigits fuel n, c.isDigit = true := by
  intro fuel
  induction fuel with
  | zero => intro n c hc; cases hc
  | succ fuel ih =>
      intro n c hc
      unfold natDigits at hc
      split_ifs at hc with h10
      · rw [List.mem_singleton] at hc
        subst hc
        exact digitChar_isDigit h10
      · rcases List.mem_append.mp hc with hc2 | hc2
        · exact ih _ _ hc2
        · rw [List.mem_singleton] at hc2
          subst hc2
          exact digitChar_isDigit (Nat.mod_lt _ (by omega))

theorem digitsToNat?_natDigits (n : Nat) :
    digitsToNat? (natDigits (n + 1) n) = some n := by
  rcases hnd : natDigits (n + 1) n with _ | ⟨c, cs⟩
  · exact absurd hnd (natDigits_ne_nil _ _ (by omega))
  · have hval := digitsVal_natDigits (n + 1) n 0 (by omega)
    rw [hnd] at hval
    simpa [digitsToNat?] using hval

theorem strToInt?_pyStr (n : Nat) : strToInt? (pyStr n) = some (n : Int) := by
  unfold strToInt? pyStr
  rcases hnd : natDigits (n + 1) n with _ | ⟨c, cs⟩
  · exact absurd hnd (natDigits_ne_nil _ _ (by omega))
  · have hdig : c.isDigit = true := by
      apply natDigits_digits (n + 1) n
      rw [hnd]
      exact List.mem_cons_self c cs
    have hne : ¬ c = '-' := by
      intro hc
      rw [hc] at hdig
      cases hdig
    dsimp only
    rw [if_neg hne]
    have hval := digitsToNat?_natDigits n
    rw [hnd] at hval
    simp [hval]

theorem strToInt?_intStr (k : Int) : strToInt? (intStr k) = some k := by
  unfold intStr
  split_ifs with hk
  · unfold strToInt? pyStr
    have hdata : ("-" ++ String.mk (natDigits ((-k).toNat + 1) (-k).toNat)).data =
        '-' :: natDigits ((-k).toNat + 1) (-k).toNat := rfl
    rw [hdata]
    dsimp only
    rw [if_pos rfl]
    rw [digitsToNat?_natDigits]
    show some (-(((-k).toNat : Nat) : Int)) = some k
    congr 1
    omega
  · rw [strToInt?_pyStr]
    congr 1
    omega

end KSDB

namespace KSDB

/-! ## Entity lifecycle: per-type id and count counters (`Entity.__init__`,
`Entity._save`, `Entity.delete`, `Entity.count`, `Entity.max_id`) -/

/-- `int(v)` on a counter value loaded from `_system` (`getD 0` is never
reached on engine-written decimal strings). -/
def pyInt (s : String) : Int :=
  (strToInt? s).getD 0

/-- The raw counter string: the loaded value, or `"0"` when the key is
absent (`if current_id is None: current_id = "0"`; a non-string value
never occurs under a `_system` key). -/
def counterStr (v : Option Json) : String :=
  match v with
  | some (.str s) => s
  | _ => "0"

/-- `Entity.max_id()`: `int(max_id) if max_id else 0`. -/
def maxIdOf (db : DB) (t : String) : Int :=
  pyInt (counterStr (db.load "_system" (t ++ "_id")))

/-- `Entity.count()`: `int(count) if count else 0`. -/
def countOf (db : DB) (t : String) : Int :=
  pyInt (counterStr (db.load "_system" (t ++ "_count")))

/-- The record `Entity._save` persists for a property-less entity:
`serialize()` plus the `__version__` tag. -/
def entityRecord (t i : String) : Json :=
  .obj [("_type", .str t), ("_id", .str i), ("__version__", .num 1)]

/-- Does this store key hold a record of qualified type `t`?  Record keys
are `t@i`; for a namespace-free `t` (no `@`) the segment before the first
`@` identifies the type. -/
def isRecKeyB (t k : String) : Bool :=
  (k.data.takeWhile (fun c => c ≠ '@') == t.data) && k.data.contains '@'

/-- The number of live (persisted) instances of type `t`. -/
def liveCount (db : DB) (t : String) : Nat :=
  db.dbStorage.countP (fun p => isRecKeyB t p.1)

/-- One entity-lifecycle operation.  `ok` on the creates models whether
the constructor's property assignments pass the hook/validators (a
rejection aborts `__init__` before `_save`); `allow` on delete models the
delete hook's verdict. -/
inductive LOp where
  | createAuto (t : String) (ok : Bool)
  | createCustom (t : String) (i : String) (ok : Bool)
  | deleteOp (t : String) (i : String) (allow : Bool)

/-- The qualified type an operation works on. -/
def LOp.ty : LOp → String
  | .createAuto t _ => t
  | .createCustom t _ _ => t
  | .deleteOp t _ _ => t

/-- A well-formed user operation: its type is namespace-key safe (no `@`)
and not the reserved `_system` type. -/
def LOp.WF (op : LOp) : Prop :=
  '@' ∉ op.ty.data ∧ op.ty ≠ "_system"

/-- One lifecycle step: `Entity.__init__` (+ `_save`) or `Entity.delete`
against the engine.  The returned state is the state at return/raise time
(mutations made before a `raise` persist). -/
def lstep (db : DB) (op : LOp) (now : Int) : DB × Option String :=
  match op with
  | .createAuto t ok =>
      -- __init__, auto-id branch: read the counter, bump it, persist it
      let cur := counterStr (db.load "_system" (t ++ "_id"))
      let nextId := intStr (pyInt cur + 1)
      let db1 := db.save "_system" (t ++ "_id") (.str nextId) now
      if ¬ ok then (db1, some "ValidationError")
      else
        -- _save with a fresh non-None id and _loaded = False
        match db1.load t nextId with
        | some _ => (db1, some "ValueError")
        | Option.none =>
            let cnt := pyInt (counterStr (db1.load "_system" (t ++ "_count")))
            let db2 := db1.save "_system" (t ++ "_count") (.str (intStr (cnt + 1))) now
            (db2.save t nextId (entityRecord t nextId) now, Option.none)
  | .createCustom t i ok =>
      -- __init__, custom-id branch: advance the counter only for a larger
      -- numeric id (a non-numeric id raises inside the try and is ignored)
      let curMax := counterStr (db.load "_system" (t ++ "_id"))
      let db1 :=
        match strToInt? i with
        | some ci =>
            if ci > pyInt curMax then db.save "_system" (t ++ "_id") (.str i) now else db
        | Option.none => db
      if ¬ ok then (db1, some "ValidationError")
      else
        match db1.load t i with
        | some _ => (db1, some "ValueError")
        | Option.none =>
            let cnt := pyInt (counterStr (db1.load "_system" (t ++ "_count")))
            let db2 := db1.save "_system" (t ++ "_count") (.str (intStr (cnt + 1))) now
            (db2.save t i (entityRecord t i) now, Option.none)
  | .deleteOp t i allow =>
      -- Entity.delete: hook, engine delete (KeyError when the record is
      -- gone), then the count decrement with its zero guard
      if ¬ allow then (db, some "PermissionError")
      else
        match db.delete t i now with
        | (_, some e) => (db, some e)
        | (db1, Option.none) =>
            let cnt := pyInt (counterStr (db1.load "_system" (t ++ "_count")))
            if cnt > 0 then
              (db1.save "_system" (t ++ "_count") (.str (intStr (cnt - 1))) now, Option.none)
            else (db1, some "ValueError: count is already zero")

/-- Run a sequence of lifecycle operations (each with its timestamp). -/
def runLOps (db : DB) : List (LOp × Int) → DB
  | [] => db
  | (op, now) :: rest => runLOps (lstep db op now).1 rest

end KSDB

namespace KSDB

theorem String.ext' {s t : String} (h : s.data = t.data) : s = t := by
  cases s
  cases t
  exact congrArg String.mk h

theorem takeWhile_append_at {l1 l2 : List Char} (h : '@' ∉ l1) :
    (l1 ++ '@' :: l2).takeWhile (fun c => c ≠ '@') = l1 := by
  induction l1 with
  | nil => simp [List.takeWhile]
  | cons x xs ih =>
      simp only [List.mem_cons, not_or] at h
      have hx : (x ≠ '@') = True := by
        simp only [ne_eq, eq_iff_iff, iff_true]
        exact fun e => h.1 e.symm
      simp only [List.cons_append, List.takeWhile_cons, hx, ih h.2]
      simp

theorem atKey_data (a x : String) :
    (a ++ "@" ++ x).data = a.data ++ '@' :: x.data := by
  rw [String.data_append, String.data_append]
  rw [show ("@" : String).data = ['@'] from rfl]
  simp

theorem atKey_inj {a b x y : String} (ha : '@' ∉ a.data) (hb : '@' ∉ b.data)
    (h : a ++ "@" ++ x = b ++ "@" ++ y) : a = b ∧ x = y := by
  have hd : a.data ++ '@' :: x.data = b.data ++ '@' :: y.data := by
    rw [← atKey_data, ← atKey_data, h]
  have hab : a.data = b.data := by
    have h1 := @takeWhile_append_at a.data x.data ha
    have h2 := @takeWhile_append_at b.data y.data hb
    rw [← h1, ← h2, hd]
  refine ⟨String.ext' hab, ?_⟩
  rw [hab] at hd
  have := List.append_cancel_left hd
  exact String.ext' (List.cons.inj this).2

theorem suffix_key_inj {a b : String} {s : String}
    (h : a ++ s = b ++ s) : a = b := by
  have hd : a.data ++ s.data = b.data ++ s.data := by
    rw [← String.data_append, ← String.data_append, h]
  exact String.ext' (List.append_cancel_right hd)

theorem id_ne_count_key (t1 t2 : String) : t1 ++ "_id" ≠ t2 ++ "_count" := by
  intro h
  have hd : t1.data ++ "_id".data = t2.data ++ "_count".data := by
    rw [← String.data_append, ← String.data_append, h]
  have h1 : (t1.data ++ "_id".data).getLast? = some 'd' := by
    rw [List.getLast?_append]
    rfl
  have h2 : (t2.data ++ "_count".data).getLast? = some 't' := by
    rw [List.getLast?_append]
    rfl
  rw [hd, h2] at h1
  cases h1

theorem isRecKeyB_atKey {t t' i : String} (ht : '@' ∉ t.data) (ht' : '@' ∉ t'.data) :
    isRecKeyB t (t' ++ "@" ++ i) = decide (t = t') := by
  unfold isRecKeyB
  rw [atKey_data, takeWhile_append_at ht']
  by_cases he : t = t'
  · subst he
    simp
  · have hne : ¬ t'.data = t.data := fun hdd => he (String.ext' hdd.symm)
    simp [hne, he]

theorem isRecKeyB_self {t i : String} (ht : '@' ∉ t.data) :
    isRecKeyB t (t ++ "@" ++ i) = true := by
  rw [isRecKeyB_atKey ht ht]
  simp

theorem isRecKeyB_sysKey {t k : String} (ht : '@' ∉ t.data) (hts : t ≠ "_system") :
    isRecKeyB t ("_system" ++ "@" ++ k) = false := by
  rw [isRecKeyB_atKey ht (by decide)]
  simp [hts]

theorem find?_map_replace (st : Store) (k : String) (v : SVal) :
    List.find? (fun p => p.1 == k)
      (st.map (fun p => if p.1 == k then (k, v) else p)) =
    (if st.any (fun p => p.1 == k) then some (k, v) else Option.none) := by
  induction st with
  | nil => rfl
  | cons q qs ih =>
      by_cases hq : q.1 = k
      · have hb : (q.1 == k) = true := by simp [hq]
        rw [List.map_cons, if_pos hb,
          @List.find?_cons_of_pos (String × SVal) (fun r => r.1 == k) (k, v) _
            (beq_self_eq_true k),
          List.any_cons, hb]
        rfl
      · have hb : (q.1 == k) = false := by simp [hq]
        have hifneg : ¬ (q.1 == k) = true := by
          simp only [hb]
          exact Bool.false_ne_true
        rw [List.map_cons, if_neg hifneg,
          @List.find?_cons_of_neg (String × SVal) (fun r => r.1 == k) q _ hifneg,
          List.any_cons, hb, ih, Bool.false_or]

theorem find?_map_replace_ne (st : Store) (k : String) (v : SVal) (k' : String)
    (hk : k' ≠ k) :
    List.find? (fun p => p.1 == k')
      (st.map (fun p => if p.1 == k then (k, v) else p)) =
    List.find? (fun p => p.1 == k') st := by
  induction st with
  | nil => rfl
  | cons q qs ih =>
      by_cases hq : q.1 = k
      · have hb : (q.1 == k) = true := by simp [hq]
        have h1 : ¬ ((k, v).1 == k') = true := by
          simp only [beq_iff_eq]
          exact fun e => hk e.symm
        have h2 : ¬ (q.1 == k') = true := by
          simp only [beq_iff_eq, hq]
          exact fun e => hk e.symm
        rw [List.map_cons, if_pos hb,
          @List.find?_cons_of_neg (String × SVal) (fun r => r.1 == k') (k, v) _ h1,
          @List.find?_cons_of_neg (String × SVal) (fun r => r.1 == k') q _ h2, ih]
      · have hifneg : ¬ (q.1 == k) = true := by simp [hq]
        rw [List.map_cons, if_neg hifneg]
        by_cases hq' : (q.1 == k') = true
        · rw [@List.find?_cons_of_pos (String × SVal) (fun r => r.1 == k') q _ hq',
            @List.find?_cons_of_pos (String × SVal) (fun r => r.1 == k') q _ hq']
        · rw [@List.find?_cons_of_neg (String × SVal) (fun r => r.1 == k') q _ hq',
            @List.find?_cons_of_neg (String × SVal) (fun r => r.1 == k') q _ hq', ih]

theorem Store.get_insert (st : Store) (k : String) (v : SVal) (k' : String) :
    (st.insert k v).get k' = if k' = k then some v else st.get k' := by
  unfold Store.insert Store.get
  split_ifs with hp hk hk
  · subst hk
    rw [find?_map_replace, if_pos hp]
    rfl
  · rw [find?_map_replace_ne _ _ _ _ hk]
  · have hnone : List.find? (fun p => p.1 == k') st = Option.none := by
      rw [List.find?_eq_none]
      intro x hx hbx
      apply hp
      apply List.any_eq_true.mpr
      refine ⟨x, hx, ?_⟩
      rw [beq_iff_eq] at hbx ⊢
      rw [hbx, hk]
    rw [List.find?_append, hnone]
    have hone : List.find? (fun p => p.1 == k') [(k, v)] = some (k, v) := by
      apply List.find?_cons_of_pos
      rw [beq_iff_eq]
      exact hk.symm
    rw [hone]
    rfl
  · have h1 : ¬ ((k, v).1 == k') = true := by
      simp only [beq_iff_eq]
      exact fun e => hk e.symm
    rw [List.find?_append]
    have h2 : List.find? (fun p => p.1 == k') [(k, v)] = Option.none := by
      rw [@List.find?_cons_of_neg (String × SVal) (fun r => r.1 == k') (k, v) _ h1]
      rfl
    rw [h2]
    simp

theorem Store.remove_eq_none_iff (st : Store) (k : String) :
    st.remove k = Option.none ↔ st.any (fun p => p.1 == k) = false := by
  unfold Store.remove
  split_ifs with hp
  · simp [hp]
  · simp only [Bool.not_eq_true] at hp
    simp [hp]

theorem find?_filter_ne (st : Store) (k k' : String) (hk : k' ≠ k) :
    List.find? (fun p => p.1 == k') (st.filter (fun p => p.1 != k)) =
    List.find? (fun p => p.1 == k') st := by
  induction st with
  | nil => rfl
  | cons q qs ih =>
      by_cases hq : q.1 = k
      · have h2 : ¬ (q.1 == k') = true := by
          simp only [beq_iff_eq, hq]
          exact fun e => hk e.symm
        have h3 : (q.1 != k) = false := by simp [bne, hq]
        rw [List.filter_cons, h3]
        simp only [Bool.false_eq_true, if_false]
        rw [@List.find?_cons_of_neg (String × SVal) (fun r => r.1 == k') q _ h2, ih]
      · have h3 : (q.1 != k) = true := by simp [bne, hq]
        rw [List.filter_cons, h3]
        simp only [if_true]
        by_cases hq' : (q.1 == k') = true
        · rw [@List.find?_cons_of_pos (String × SVal) (fun r => r.1 == k') q _ hq',
            @List.find?_cons_of_pos (String × SVal) (fun r => r.1 == k') q _ hq']
        · rw [@List.find?_cons_of_neg (String × SVal) (fun r => r.1 == k') q _ hq',
            @List.find?_cons_of_neg (String × SVal) (fun r => r.1 == k') q _ hq', ih]

theorem Store.get_remove {st st' : Store} {k : String}
    (h : st.remove k = some st') (k' : String) :
    st'.get k' = if k' = k then Option.none else st.get k' := by
  unfold Store.remove at h
  split_ifs at h with hp
  · cases h
    unfold Store.get
    split_ifs with hk
    · have hfind : List.find? (fun p => p.1 == k')
          (st.filter (fun p => p.1 != k)) = Option.none := by
        rw [List.find?_eq_none]
        intro x hx hbx
        have hmem := List.of_mem_filter hx
        rw [beq_iff_eq] at hbx
        rw [hk] at hbx
        simp [bne, hbx] at hmem
      rw [hfind]
      rfl
    · rw [find?_filter_ne _ _ _ hk]

theorem countP_map_fst (st : Store) (k : String) (v : SVal) (p : String → Bool) :
    (st.map (fun q => if q.1 == k then (k, v) else q)).countP (fun q => p q.1) =
      st.countP (fun q => p q.1) := by
  induction st with
  | nil => rfl
  | cons q qs ih =>
      by_cases hq : q.1 = k
      · have hb : (q.1 == k) = true := by simp [hq]
        rw [List.map_cons, if_pos hb, List.countP_cons, List.countP_cons, ih, hq]
      · have hb : ¬ (q.1 == k) = true := by simp [hq]
        rw [List.map_cons, if_neg hb, List.countP_cons, List.countP_cons, ih]

theorem countP_insert (st : Store) (k : String) (v : SVal) (p : String → Bool) :
    (st.insert k v).countP (fun q => p q.1) =
      st.countP (fun q => p q.1) +
        (if st.any (fun q => q.1 == k) then 0 else if p k then 1 else 0) := by
  unfold Store.insert
  split_ifs with hp hpk
  · rw [Nat.add_zero, countP_map_fst]
  · rw [List.countP_append, List.countP_cons, List.countP_nil]
    simp [hpk]
  · rw [List.countP_append, List.countP_cons, List.countP_nil]
    simp [hpk]

theorem filter_eq_self_of_no_key {st : Store} {k : String}
    (h : ∀ x ∈ st, x.1 ≠ k) : st.filter (fun p => p.1 != k) = st := by
  rw [List.filter_eq_self]
  intro x hx
  simp [bne, h x hx]

theorem countP_remove {st st' : Store} {k : String} (p : String → Bool)
    (hnd : (st.map Prod.fst).Nodup) (h : st.remove k = some st') :
    st.countP (fun q => p q.1) = st'.countP (fun q => p q.1) + (if p k then 1 else 0) := by
  unfold Store.remove at h
  split_ifs at h with hp
  · cases h
    induction st with
    | nil => cases hp
    | cons q qs ih =>
        rw [List.map_cons, List.nodup_cons] at hnd
        by_cases hq : q.1 = k
        · have hb : (q.1 != k) = false := by simp [bne, hq]
          have hqs : ∀ x ∈ qs, x.1 ≠ k := by
            intro x hx he
            apply hnd.1
            have hxm : x.1 ∈ List.map Prod.fst qs := List.mem_map_of_mem Prod.fst hx
            rw [he, ← hq] at hxm
            exact hxm
          rw [List.filter_cons, hb]
          simp only [Bool.false_eq_true, if_false]
          rw [filter_eq_self_of_no_key hqs, List.countP_cons, hq]
        · have hb : (q.1 != k) = true := by simp [bne, hq]
          have hany : qs.any (fun r => r.1 == k) = true := by
            rcases List.any_eq_true.mp hp with ⟨x, hx, hbx⟩
            rcases List.mem_cons.mp hx with he | hxs
            · rw [beq_iff_eq] at hbx
              rw [he] at hbx
              exact absurd hbx hq
            · exact List.any_eq_true.mpr ⟨x, hxs, hbx⟩
          rw [List.filter_cons, hb]
          simp only [if_true]
          rw [List.countP_cons, List.countP_cons, ih hnd.2 hany]
          ring

/-! ## Engine-level effect lemmas for the entity lifecycle (claims C3, C4) -/

theorem auditOp_storage (db : DB) (o k : String) (p : Option SVal) (n : Int) :
    (db.auditOp o k p n).dbStorage = db.dbStorage := by
  unfold DB.auditOp
  rcases hA : db.dbAudit with _ | aud
  · rfl
  · split_ifs <;> rfl

theorem save_storage (db : DB) (t i : String) (d : Json) (n : Int) :
    (db.save t i d n).dbStorage = db.dbStorage.insert (t ++ "@" ++ i) (.js d) := by
  simp only [DB.save]
  rw [auditOp_storage]

theorem load_save (db : DB) (t i : String) (d : Json) (n : Int) (t' i' : String) :
    (db.save t i d n).load t' i' =
      if t' ++ "@" ++ i' = t ++ "@" ++ i then some d else db.load t' i' := by
  unfold DB.load
  rw [save_storage, Store.get_insert]
  split_ifs with h
  · rfl
  · rfl

theorem delete_success {db db' : DB} {t i : String} {n : Int}
    (h : db.delete t i n = (db', Option.none)) :
    db.dbStorage.remove (t ++ "@" ++ i) = some db'.dbStorage := by
  unfold DB.delete at h
  dsimp only at h
  rcases hE : db.dbStorage.remove (t ++ "@" ++ i) with _ | st <;> rw [hE] at h
  · simp at h
  · dsimp only at h
    have h1 := congrArg Prod.fst h
    dsimp only at h1
    rw [← h1, auditOp_storage]

theorem remove_eq_filter {st st' : Store} {k : String} (h : st.remove k = some st') :
    st' = st.filter (fun p => p.1 != k) := by
  unfold Store.remove at h
  split_ifs at h with hp
  exact (Option.some.inj h).symm

theorem load_delete_success {db db' : DB} {t i : String} {n : Int}
    (h : db.delete t i n = (db', Option.none)) (t' i' : String) :
    db'.load t' i' =
      if t' ++ "@" ++ i' = t ++ "@" ++ i then Option.none else db.load t' i' := by
  have hrm := delete_success h
  unfold DB.load
  rw [Store.get_remove hrm]
  split_ifs with hk
  · rfl
  · rfl

theorem delete_eq_of_present {db : DB} {t i : String} (n : Int)
    (h : db.dbStorage.any (fun p => p.1 == t ++ "@" ++ i) = true) :
    db.delete t i n =
      (({db with dbStorage := db.dbStorage.filter (fun p => p.1 != t ++ "@" ++ i)} : DB).auditOp
        "delete" (t ++ "@" ++ i) (db.dbStorage.get (t ++ "@" ++ i)) n, Option.none) := by
  unfold DB.delete Store.remove
  dsimp only
  rw [if_pos h]

/-! ### Key-shape facts for the system counter keys and record keys -/

theorem sysKey_ne_recKey {t : String} (ht : '@' ∉ t.data) (hts : t ≠ "_system")
    (x i : String) : "_system" ++ "@" ++ x ≠ t ++ "@" ++ i := by
  intro h
  exact hts (atKey_inj (by decide) ht h).1.symm

theorem sysKey_inj {x y : String} :
    ("_system" ++ "@" ++ x = "_system" ++ "@" ++ y) ↔ x = y := by
  constructor
  · intro h
    exact (atKey_inj (by decide) (by decide) h).2
  · intro h
    rw [h]

theorem countKey_ne_idKey (t1 t2 : String) : t1 ++ "_count" ≠ t2 ++ "_id" :=
  fun h => id_ne_count_key t2 t1 h.symm

theorem pyInt_intStr (k : Int) : pyInt (intStr k) = k := by
  unfold pyInt
  rw [strToInt?_intStr]
  rfl

theorem counterStr_some_str (s : String) : counterStr (some (.str s)) = s := rfl

/-! ### Effect of each engine write on the per-type counters and live count -/

theorem maxIdOf_save_sys (db : DB) (x : String) (d : Json) (n : Int) (T : String) :
    maxIdOf (db.save "_system" x d n) T =
      if x = T ++ "_id" then pyInt (counterStr (some d)) else maxIdOf db T := by
  unfold maxIdOf
  rw [load_save]
  rcases eq_or_ne x (T ++ "_id") with h | h
  · rw [if_pos (by rw [h]), if_pos h]
  · rw [if_neg (fun hc => h (sysKey_inj.mp hc).symm), if_neg h]

theorem countOf_save_sys (db : DB) (x : String) (d : Json) (n : Int) (T : String) :
    countOf (db.save "_system" x d n) T =
      if x = T ++ "_count" then pyInt (counterStr (some d)) else countOf db T := by
  unfold countOf
  rw [load_save]
  rcases eq_or_ne x (T ++ "_count") with h | h
  · rw [if_pos (by rw [h]), if_pos h]
  · rw [if_neg (fun hc => h (sysKey_inj.mp hc).symm), if_neg h]

theorem maxIdOf_save_rec {t : String} (ht : '@' ∉ t.data) (hts : t ≠ "_system")
    (db : DB) (i : String) (d : Json) (n : Int) (T : String) :
    maxIdOf (db.save t i d n) T = maxIdOf db T := by
  unfold maxIdOf
  rw [load_save, if_neg (sysKey_ne_recKey ht hts _ _)]

theorem countOf_save_rec {t : String} (ht : '@' ∉ t.data) (hts : t ≠ "_system")
    (db : DB) (i : String) (d : Json) (n : Int) (T : String) :
    countOf (db.save t i d n) T = countOf db T := by
  unfold countOf
  rw [load_save, if_neg (sysKey_ne_recKey ht hts _ _)]

theorem countOf_auditOp (db : DB) (o k : String) (p : Option SVal) (n : Int) (T : String) :
    countOf (db.auditOp o k p n) T = countOf db T := by
  unfold countOf DB.load
  rw [auditOp_storage]

theorem countOf_delete {t : String} (ht : '@' ∉ t.data) (hts : t ≠ "_system")
    {db db' : DB} {i : String} {n : Int} (h : db.delete t i n = (db', Option.none))
    (T : String) : countOf db' T = countOf db T := by
  unfold countOf
  rw [load_delete_success h, if_neg (sysKey_ne_recKey ht hts _ _)]

theorem countOf_filter_rec {t : String} (ht : '@' ∉ t.data) (hts : t ≠ "_system")
    (db : DB) (i : String) (T : String) :
    countOf ({db with dbStorage := db.dbStorage.filter (fun p => p.1 != t ++ "@" ++ i)} : DB) T
      = countOf db T := by
  unfold countOf DB.load Store.get
  rw [find?_filter_ne _ _ _ (sysKey_ne_recKey ht hts _ _)]

theorem liveCount_save_sys {T : String} (hT : '@' ∉ T.data) (hTs : T ≠ "_system")
    (db : DB) (x : String) (d : Json) (n : Int) :
    liveCount (db.save "_system" x d n) T = liveCount db T := by
  unfold liveCount
  rw [save_storage, countP_insert, isRecKeyB_sysKey hT hTs]
  simp

theorem liveCount_save_rec_new {t : String} (ht : '@' ∉ t.data) {db : DB} {i : String}
    (hab : db.dbStorage.any (fun q => q.1 == t ++ "@" ++ i) = false)
    (d : Json) (n : Int) :
    liveCount (db.save t i d n) t = liveCount db t + 1 := by
  unfold liveCount
  rw [save_storage, countP_insert, hab, isRecKeyB_self ht]
  simp

theorem liveCount_save_rec_other {T t i : String}
    (h : isRecKeyB T (t ++ "@" ++ i) = false) (db : DB) (d : Json) (n : Int) :
    liveCount (db.save t i d n) T = liveCount db T := by
  unfold liveCount
  rw [save_storage, countP_insert, h]
  simp

theorem liveCount_delete {db db' : DB} {t i : String} {n : Int}
    (h : db.delete t i n = (db', Option.none))
    (hnd : (db.dbStorage.map Prod.fst).Nodup) (T : String) :
    liveCount db T = liveCount db' T + (if isRecKeyB T (t ++ "@" ++ i) then 1 else 0) := by
  unfold liveCount
  exact countP_remove _ hnd (delete_success h)

/-! ### Store well-formedness carried along the lifecycle -/

/-- All stored values are JSON-encoded (`Database.save` always encodes). -/
def JsOnly (st : Store) : Prop := ∀ p ∈ st, ∃ j, p.2 = SVal.js j

theorem map_fst_replace (st : Store) (k : String) (v : SVal) :
    (st.map (fun q => if q.1 == k then (k, v) else q)).map Prod.fst = st.map Prod.fst := by
  induction st with
  | nil => rfl
  | cons q qs ih =>
      by_cases hq : q.1 = k
      · have hb : (q.1 == k) = true := by simp [hq]
        rw [List.map_cons, if_pos hb, List.map_cons, List.map_cons, ih]
        dsimp only
        rw [hq]
      · have hb : ¬ (q.1 == k) = true := by simp [hq]
        rw [List.map_cons, if_neg hb, List.map_cons, List.map_cons, ih]

theorem nodup_fst_insert {st : Store} {k : String} (v : SVal)
    (h : (st.map Prod.fst).Nodup) : ((st.insert k v).map Prod.fst).Nodup := by
  unfold Store.insert
  split_ifs with hp
  · rw [map_fst_replace]
    exact h
  · rw [List.map_append]
    rw [List.nodup_append]
    refine ⟨h, List.nodup_singleton k, ?_⟩
    intro a ha hb
    simp only [List.map_cons, List.map_nil, List.mem_singleton] at hb
    subst hb
    rcases List.mem_map.mp ha with ⟨q, hqs, hqk⟩
    exact hp (List.any_eq_true.mpr ⟨q, hqs, by simp [hqk]⟩)

theorem nodup_fst_filter {st : Store} (p : String × SVal → Bool)
    (h : (st.map Prod.fst).Nodup) : ((st.filter p).map Prod.fst).Nodup :=
  h.sublist ((List.filter_sublist st).map Prod.fst)

theorem mem_insert {st : Store} {k : String} {v : SVal} {x : String × SVal}
    (hx : x ∈ st.insert k v) : x ∈ st ∨ x = (k, v) := by
  unfold Store.insert at hx
  split_ifs at hx with hp
  · rcases List.mem_map.mp hx with ⟨q, hq, he⟩
    by_cases hqk : (q.1 == k) = true
    · rw [if_pos hqk] at he
      right
      exact he.symm
    · rw [if_neg hqk] at he
      left
      rw [← he]
      exact hq
  · rcases List.mem_append.mp hx with h1 | h1
    · left
      exact h1
    · right
      exact List.mem_singleton.mp h1

theorem jsOnly_insert {st : Store} {k : String} {j : Json}
    (h : JsOnly st) : JsOnly (st.insert k (.js j)) := by
  intro p hp
  rcases mem_insert hp with h1 | h1
  · exact h p h1
  · exact ⟨j, by rw [h1]⟩

theorem jsOnly_filter {st : Store} (q : String × SVal → Bool) (h : JsOnly st) :
    JsOnly (st.filter q) :=
  fun p hp => h p (List.mem_of_mem_filter hp)

theorem get_none_of_load_none {db : DB} {t i : String}
    (hjs : JsOnly db.dbStorage) (h : db.load t i = Option.none) :
    db.dbStorage.any (fun q => q.1 == t ++ "@" ++ i) = false := by
  unfold DB.load at h
  rcases hf : List.find? (fun q => q.1 == t ++ "@" ++ i) db.dbStorage with _ | q
  · rw [Bool.eq_false_iff]
    intro ha
    rcases List.any_eq_true.mp ha with ⟨x, hxs, hxk⟩
    rw [List.find?_eq_none] at hf
    exact hf x hxs hxk
  · exfalso
    have hq := List.mem_of_find?_eq_some hf
    rcases hjs q hq with ⟨j, hj⟩
    have hg : db.dbStorage.get (t ++ "@" ++ i) = some q.2 := by
      unfold Store.get
      rw [hf]
      rfl
    rw [hg, hj] at h
    simp at h

/-- The invariant the lifecycle maintains over the engine store: keys are
unique, all values are JSON-encoded, and for every entity type the stored
count equals the number of live records. -/
structure LifeInv (db : DB) : Prop where
  nodupKeys : (db.dbStorage.map Prod.fst).Nodup
  jsOnly : JsOnly db.dbStorage
  count : ∀ T, '@' ∉ T.data → T ≠ "_system" →
    countOf db T = (liveCount db T : Int)

theorem lifeInv_save_id {db : DB} (t : String) (d : Json) (n : Int)
    (hinv : LifeInv db) : LifeInv (db.save "_system" (t ++ "_id") d n) := by
  refine ⟨?_, ?_, ?_⟩
  · rw [save_storage]
    exact nodup_fst_insert _ hinv.nodupKeys
  · rw [save_storage]
    exact jsOnly_insert hinv.jsOnly
  · intro T hT hTs
    rw [countOf_save_sys, if_neg (id_ne_count_key t T), liveCount_save_sys hT hTs]
    exact hinv.count T hT hTs

theorem lifeInv_success_save {t : String} (ht : '@' ∉ t.data) (hts : t ≠ "_system")
    {db1 : DB} {i : String} (h1 : LifeInv db1) (hL : db1.load t i = Option.none)
    (now : Int) :
    LifeInv ((db1.save "_system" (t ++ "_count")
        (.str (intStr (pyInt (counterStr (db1.load "_system" (t ++ "_count"))) + 1))) now).save
      t i (entityRecord t i) now) := by
  have hdb2js : JsOnly ((db1.save "_system" (t ++ "_count")
      (.str (intStr (pyInt (counterStr (db1.load "_system" (t ++ "_count"))) + 1))) now).dbStorage) := by
    rw [save_storage]
    exact jsOnly_insert h1.jsOnly
  have hL2 : (db1.save "_system" (t ++ "_count")
      (.str (intStr (pyInt (counterStr (db1.load "_system" (t ++ "_count"))) + 1))) now).load t i
      = Option.none := by
    rw [load_save, if_neg (Ne.symm (sysKey_ne_recKey ht hts _ _))]
    exact hL
  have hab := get_none_of_load_none hdb2js hL2
  refine ⟨?_, ?_, ?_⟩
  · rw [save_storage, save_storage]
    exact nodup_fst_insert _ (nodup_fst_insert _ h1.nodupKeys)
  · rw [save_storage, save_storage]
    exact jsOnly_insert (jsOnly_insert h1.jsOnly)
  · intro T hT hTs'
    rw [countOf_save_rec ht hts, countOf_save_sys]
    by_cases hTt : T = t
    · rw [hTt, if_pos rfl, counterStr_some_str, pyInt_intStr,
        liveCount_save_rec_new ht hab, liveCount_save_sys ht hts]
      have hc := h1.count t ht hts
      show countOf db1 t + 1 = ((liveCount db1 t + 1 : Nat) : Int)
      omega
    · rw [if_neg (fun h => hTt (suffix_key_inj h).symm),
        liveCount_save_rec_other (by rw [isRecKeyB_atKey hT ht]; simp [hTt]),
        liveCount_save_sys hT hTs']
      exact h1.count T hT hTs'

theorem lifeInv_lstep {db : DB} {op : LOp} {now : Int}
    (hop : op.WF) (hinv : LifeInv db) : LifeInv (lstep db op now).1 := by
  cases op with
  | createAuto t ok =>
      simp only [LOp.WF, LOp.ty] at hop
      obtain ⟨ht, hts⟩ := hop
      simp only [lstep]
      generalize intStr (pyInt (counterStr (db.load "_system" (t ++ "_id"))) + 1) = nid
      have h1 : LifeInv (db.save "_system" (t ++ "_id") (.str nid) now) :=
        lifeInv_save_id t _ now hinv
      generalize hg : db.save "_system" (t ++ "_id") (.str nid) now = db1
      rw [hg] at h1
      split_ifs with hok
      · rcases hL : db1.load t nid with _ | rec <;> dsimp only
        · exact lifeInv_success_save ht hts h1 hL now
        · exact h1
      · exact h1
  | createCustom t i ok =>
      simp only [LOp.WF, LOp.ty] at hop
      obtain ⟨ht, hts⟩ := hop
      simp only [lstep]
      rcases hsi : strToInt? i with _ | ci <;> dsimp only
      · split_ifs with hok
        · rcases hL : db.load t i with _ | rec <;> dsimp only
          · exact lifeInv_success_save ht hts hinv hL now
          · exact hinv
        · exact hinv
      · have h1 : LifeInv (if ci > pyInt (counterStr (db.load "_system" (t ++ "_id"))) then
            db.save "_system" (t ++ "_id") (.str i) now else db) := by
          split_ifs with hgt
          · exact lifeInv_save_id t _ now hinv
          · exact hinv
        generalize hg : (if ci > pyInt (counterStr (db.load "_system" (t ++ "_id"))) then
            db.save "_system" (t ++ "_id") (.str i) now else db) = db1
        rw [hg] at h1
        split_ifs with hok
        · rcases hL : db1.load t i with _ | rec <;> dsimp only
          · exact lifeInv_success_save ht hts h1 hL now
          · exact h1
        · exact h1
  | deleteOp t i allow =>
      simp only [LOp.WF, LOp.ty] at hop
      obtain ⟨ht, hts⟩ := hop
      simp only [lstep]
      split_ifs with hallow
      · rcases hd : db.delete t i now with ⟨db1, e⟩
        rcases e with _ | err <;> dsimp only
        · have hfil := remove_eq_filter (delete_success hd)
          have hnd1 : (db1.dbStorage.map Prod.fst).Nodup := by
            rw [hfil]
            exact nodup_fst_filter _ hinv.nodupKeys
          have hjs1 : JsOnly db1.dbStorage := by
            rw [hfil]
            exact jsOnly_filter _ hinv.jsOnly
          have hlt : liveCount db t = liveCount db1 t + 1 := by
            have h2 := liveCount_delete hd hinv.nodupKeys t
            rw [isRecKeyB_self ht] at h2
            simpa using h2
          have hpos : countOf db1 t = (liveCount db1 t : Int) + 1 := by
            rw [countOf_delete ht hts hd, hinv.count t ht hts, hlt]
            push_cast
            ring
          split_ifs with h0
          · refine ⟨?_, ?_, ?_⟩
            · rw [save_storage]
              exact nodup_fst_insert _ hnd1
            · rw [save_storage]
              exact jsOnly_insert hjs1
            · intro T hT hTs'
              rw [countOf_save_sys, liveCount_save_sys hT hTs']
              by_cases hTt : T = t
              · rw [if_pos (by rw [hTt]), counterStr_some_str, pyInt_intStr, hTt]
                show countOf db1 t - 1 = (liveCount db1 t : Int)
                omega
              · rw [if_neg (fun h => hTt (suffix_key_inj h).symm)]
                have h2 := liveCount_delete hd hinv.nodupKeys T
                rw [isRecKeyB_atKey hT ht] at h2
                simp only [hTt, decide_False, Bool.false_eq_true, if_false,
                  Nat.add_zero] at h2
                rw [countOf_delete ht hts hd, hinv.count T hT hTs', h2]
          · exfalso
            have h0' : ¬ countOf db1 t > 0 := h0
            omega
        · exact hinv
      · exact hinv

theorem lifeInv_initDB (b : Bool) : LifeInv (initDB b) := by
  refine ⟨?_, ?_, ?_⟩
  · simp [initDB]
  · intro p hp
    simp [initDB] at hp
  · intro T hT hTs
    have h1 : (initDB b).load "_system" (T ++ "_count") = Option.none := rfl
    unfold countOf
    rw [h1]
    have h2 : counterStr Option.none = "0" := rfl
    rw [h2]
    unfold pyInt
    rw [strToInt_0]
    rfl

theorem lifeInv_runLOps {ops : List (LOp × Int)} :
    ∀ {db : DB}, (∀ p ∈ ops, p.1.WF) → LifeInv db → LifeInv (runLOps db ops) := by
  induction ops with
  | nil =>
      intro db _ hinv
      exact hinv
  | cons p rest ih =>
      intro db hops hinv
      rcases p with ⟨op, now⟩
      simp only [runLOps]
      exact ih (fun q hq => hops q (List.mem_cons_of_mem _ hq))
        (lifeInv_lstep (hops _ (List.mem_cons_self _ _)) hinv)

/-! ### Monotonicity of the per-type id counter -/

theorem maxIdOf_countAndRecord_save {t : String} (ht : '@' ∉ t.data)
    (hts : t ≠ "_system") (db1 : DB) (i : String) (v : Json) (now : Int) (T : String) :
    maxIdOf ((db1.save "_system" (t ++ "_count") v now).save t i (entityRecord t i) now) T
      = maxIdOf db1 T := by
  rw [maxIdOf_save_rec ht hts, maxIdOf_save_sys,
    if_neg (fun h => id_ne_count_key T t h.symm)]

theorem maxIdOf_lstep_mono {db : DB} {op : LOp} {now : Int} (hop : op.WF) (T : String) :
    maxIdOf db T ≤ maxIdOf (lstep db op now).1 T := by
  cases op with
  | createAuto t ok =>
      simp only [LOp.WF, LOp.ty] at hop
      obtain ⟨ht, hts⟩ := hop
      simp only [lstep]
      have h1 : maxIdOf db T ≤ maxIdOf (db.save "_system" (t ++ "_id")
          (.str (intStr (pyInt (counterStr (db.load "_system" (t ++ "_id"))) + 1))) now) T := by
        rw [maxIdOf_save_sys]
        split_ifs with hx
        · rw [counterStr_some_str, pyInt_intStr]
          have hdef : pyInt (counterStr (db.load "_system" (t ++ "_id"))) = maxIdOf db t :=
            rfl
          have hTt : t = T := suffix_key_inj hx
          rw [hdef, hTt]
          omega
        · exact le_refl _
      generalize hn : intStr (pyInt (counterStr (db.load "_system" (t ++ "_id"))) + 1) = nid
        at h1 ⊢
      generalize hg : db.save "_system" (t ++ "_id") (.str nid) now = db1 at h1 ⊢
      split_ifs with hok
      · rcases hL : db1.load t nid with _ | rec <;> dsimp only
        · rw [maxIdOf_countAndRecord_save ht hts]
          exact h1
        · exact h1
      · exact h1
  | createCustom t i ok =>
      simp only [LOp.WF, LOp.ty] at hop
      obtain ⟨ht, hts⟩ := hop
      simp only [lstep]
      rcases hsi : strToInt? i with _ | ci <;> dsimp only
      · split_ifs with hok
        · rcases hL : db.load t i with _ | rec <;> dsimp only
          · rw [maxIdOf_countAndRecord_save ht hts]
          · exact le_refl _
        · exact le_refl _
      · have h1 : maxIdOf db T ≤ maxIdOf
            (if ci > pyInt (counterStr (db.load "_system" (t ++ "_id"))) then
              db.save "_system" (t ++ "_id") (.str i) now else db) T := by
          split_ifs with hgt
          · rw [maxIdOf_save_sys]
            split_ifs with hx
            · rw [counterStr_some_str]
              have hpi : pyInt i = ci := by
                unfold pyInt
                rw [hsi]
                rfl
              have hdef : pyInt (counterStr (db.load "_system" (t ++ "_id"))) = maxIdOf db t :=
                rfl
              have hTt : t = T := suffix_key_inj hx
              rw [hdef, hTt] at hgt
              rw [hpi]
              omega
            · exact le_refl _
          · exact le_refl _
        generalize hg : (if ci > pyInt (counterStr (db.load "_system" (t ++ "_id"))) then
            db.save "_system" (t ++ "_id") (.str i) now else db) = db1 at h1 ⊢
        split_ifs with hok
        · rcases hL : db1.load t i with _ | rec <;> dsimp only
          · rw [maxIdOf_countAndRecord_save ht hts]
            exact h1
          · exact h1
        · exact h1
  | deleteOp t i allow =>
      simp only [LOp.WF, LOp.ty] at hop
      obtain ⟨ht, hts⟩ := hop
      simp only [lstep]
      split_ifs with hallow
      · rcases hd : db.delete t i now with ⟨db1, e⟩
        rcases e with _ | err <;> dsimp only
        · have h1 : maxIdOf db1 T = maxIdOf db T := by
            unfold maxIdOf
            rw [load_delete_success hd, if_neg (sysKey_ne_recKey ht hts _ _)]
          split_ifs with h0
          · rw [maxIdOf_save_sys, if_neg (fun h => id_ne_count_key T t h.symm), h1]
          · rw [h1]
        · exact le_refl _
      · exact le_refl _

theorem maxIdOf_runLOps_mono {ops : List (LOp × Int)} :
    ∀ (db : DB), (∀ p ∈ ops, p.1.WF) → ∀ T : String,
      maxIdOf db T ≤ maxIdOf (runLOps db ops) T := by
  induction ops with
  | nil =>
      intro db _ T
      exact le_refl _
  | cons p rest ih =>
      intro db hops T
      rcases p with ⟨op, now⟩
      simp only [runLOps]
      exact le_trans (maxIdOf_lstep_mono (hops _ (List.mem_cons_self _ _)) T)
        (ih _ (fun q hq => hops q (List.mem_cons_of_mem _ hq)) T)

/-! ### Effect of a single create on the id counter and the created record -/

theorem lstep_createAuto_spec {db : DB} {t : String} (now : Int)
    (ht : '@' ∉ t.data) (hts : t ≠ "_system")
    (hok : (lstep db (.createAuto t true) now).2 = Option.none) :
    (lstep db (.createAuto t true) now).1.load t (intStr (maxIdOf db t + 1)) =
        some (entityRecord t (intStr (maxIdOf db t + 1))) ∧
      maxIdOf (lstep db (.createAuto t true) now).1 t = maxIdOf db t + 1 := by
  have hdef : maxIdOf db t = pyInt (counterStr (db.load "_system" (t ++ "_id"))) := rfl
  rw [hdef]
  simp only [lstep] at hok ⊢
  rw [if_neg (fun h => h trivial)] at hok ⊢
  rcases hL : (db.save "_system" (t ++ "_id")
      (.str (intStr (pyInt (counterStr (db.load "_system" (t ++ "_id"))) + 1))) now).load t
      (intStr (pyInt (counterStr (db.load "_system" (t ++ "_id"))) + 1)) with _ | rec <;>
    dsimp only at hok ⊢
  · constructor
    · rw [load_save, if_pos rfl]
    · rw [maxIdOf_countAndRecord_save ht hts, maxIdOf_save_sys, if_pos rfl,
        counterStr_some_str, pyInt_intStr]
  · rw [hL] at hok
    simp at hok

theorem lstep_createCustom_counter {db : DB} {t i : String} {ci : Int} (ok : Bool)
    (now : Int) (ht : '@' ∉ t.data) (hts : t ≠ "_system")
    (hci : strToInt? i = some ci) :
    maxIdOf (lstep db (.createCustom t i ok) now).1 t =
      if ci > maxIdOf db t then ci else maxIdOf db t := by
  have hdef : maxIdOf db t = pyInt (counterStr (db.load "_system" (t ++ "_id"))) := rfl
  rw [hdef]
  simp only [lstep]
  rw [hci]
  dsimp only
  have h1 : maxIdOf
      (if ci > pyInt (counterStr (db.load "_system" (t ++ "_id"))) then
        db.save "_system" (t ++ "_id") (.str i) now else db) t =
      if ci > pyInt (counterStr (db.load "_system" (t ++ "_id"))) then ci
      else pyInt (counterStr (db.load "_system" (t ++ "_id"))) := by
    split_ifs with hgt
    · rw [maxIdOf_save_sys, if_pos rfl, counterStr_some_str]
      unfold pyInt
      rw [hci]
      rfl
    · rfl
  generalize hg : (if ci > pyInt (counterStr (db.load "_system" (t ++ "_id"))) then
      db.save "_system" (t ++ "_id") (.str i) now else db) = db1 at h1 ⊢
  rw [← h1]
  split_ifs with hok
  · rcases hL : db1.load t i with _ | rec <;> dsimp only
    rw [maxIdOf_countAndRecord_save ht hts]
  · rfl

instance decidableLOpWF (op : LOp) : Decidable op.WF :=
  inferInstanceAs (Decidable ('@' ∉ op.ty.data ∧ op.ty ≠ "_system"))

theorem lstep_delete_zero {db : DB} {t i : String} (now : Int)
    (ht : '@' ∉ t.data) (hts : t ≠ "_system")
    (hpre : db.dbStorage.any (fun q => q.1 == t ++ "@" ++ i) = true)
    (h0 : countOf db t ≤ 0) :
    (lstep db (.deleteOp t i true) now).2 = some "ValueError: count is already zero" ∧
      countOf (lstep db (.deleteOp t i true) now).1 t = countOf db t := by
  simp only [lstep]
  rw [if_neg (fun h => h trivial)]
  rw [delete_eq_of_present now hpre]
  dsimp only
  have hco : countOf
      (({db with dbStorage := db.dbStorage.filter (fun p => p.1 != t ++ "@" ++ i)} : DB).auditOp
        "delete" (t ++ "@" ++ i) (db.dbStorage.get (t ++ "@" ++ i)) now) t = countOf db t := by
    rw [countOf_auditOp]
    exact countOf_filter_rec ht hts db i t
  have hcnt : pyInt (counterStr
      ((({db with dbStorage := db.dbStorage.filter (fun p => p.1 != t ++ "@" ++ i)} : DB).auditOp
        "delete" (t ++ "@" ++ i) (db.dbStorage.get (t ++ "@" ++ i)) now).load
        "_system" (t ++ "_count"))) = countOf db t := hco
  rw [hcnt, if_neg (by omega)]
  exact ⟨rfl, hco⟩

/-- C3: over any well-formed sequence of creates and deletes, the per-type
id counter `max_id(T)` never decreases; a successful auto-id create stores
its record under the id `max_id(T) + 1` read immediately before the create
and bumps the counter to exactly that value; and a numeric caller-supplied
id advances the counter to that id when it exceeds the current counter and
otherwise leaves the counter unchanged (a smaller id never decreases it). -/
theorem C3_monotonic_ids :
    (∀ (db : DB) (ops : List (LOp × Int)) (T : String),
        (∀ p ∈ ops, p.1.WF) → maxIdOf db T ≤ maxIdOf (runLOps db ops) T) ∧
    (∀ (db : DB) (t : String) (now : Int),
        '@' ∉ t.data → t ≠ "_system" →
        (lstep db (.createAuto t true) now).2 = Option.none →
        (lstep db (.createAuto t true) now).1.load t (intStr (maxIdOf db t + 1)) =
            some (entityRecord t (intStr (maxIdOf db t + 1))) ∧
          maxIdOf (lstep db (.createAuto t true) now).1 t = maxIdOf db t + 1) ∧
    (∀ (db : DB) (t i : String) (ci : Int) (ok : Bool) (now : Int),
        '@' ∉ t.data → t ≠ "_system" → strToInt? i = some ci →
        maxIdOf (lstep db (.createCustom t i ok) now).1 t =
          if ci > maxIdOf db t then ci else maxIdOf db t) :=
  ⟨fun db ops T h => maxIdOf_runLOps_mono db h T,
   fun _ _ now ht hts hok => lstep_createAuto_spec now ht hts hok,
   fun _ _ _ _ ok now ht hts hci => lstep_createCustom_counter ok now ht hts hci⟩

/-- Concrete instance of `C3_monotonic_ids`: a create/create/delete run on
type `Person`, the first auto-id create, and a custom-id create with id 7. -/
theorem C3_monotonic_ids_witness :
    maxIdOf (initDB false) "Person" ≤
        maxIdOf (runLOps (initDB false)
          [(.createAuto "Person" true, 1), (.createCustom "Person" "7" true, 2),
           (.deleteOp "Person" "1" true, 3)]) "Person" ∧
      ((lstep (initDB false) (.createAuto "Person" true) 1).1.load "Person"
            (intStr (maxIdOf (initDB false) "Person" + 1)) =
          some (entityRecord "Person" (intStr (maxIdOf (initDB false) "Person" + 1))) ∧
        maxIdOf (lstep (initDB false) (.createAuto "Person" true) 1).1 "Person" =
          maxIdOf (initDB false) "Person" + 1) ∧
      maxIdOf (lstep (initDB false) (.createCustom "Person" "7" true) 2).1 "Person" =
        if (7 : Int) > maxIdOf (initDB false) "Person" then 7
        else maxIdOf (initDB false) "Person" :=
  ⟨C3_monotonic_ids.1 (initDB false) _ "Person" (by decide),
   C3_monotonic_ids.2.1 (initDB false) "Person" 1 (by decide) (by decide) (by decide),
   C3_monotonic_ids.2.2 (initDB false) "Person" "7" 7 true 2 (by decide) (by decide)
     (by decide)⟩

/-- C4: starting from a fresh engine, after any well-formed sequence of
creates and deletes the stored count of every entity type equals its number
of live records; and an allowed delete that removes an existing record while
the stored count is already ≤ 0 raises the count-consistency `ValueError`
instead of clamping (the stored count is left exactly as it was). -/
theorem C4_count_invariant :
    (∀ (b : Bool) (ops : List (LOp × Int)) (T : String),
        (∀ p ∈ ops, p.1.WF) → '@' ∉ T.data → T ≠ "_system" →
        countOf (runLOps (initDB b) ops) T =
          (liveCount (runLOps (initDB b) ops) T : Int)) ∧
    (∀ (db : DB) (t i : String) (now : Int),
        '@' ∉ t.data → t ≠ "_system" →
        db.dbStorage.any (fun q => q.1 == t ++ "@" ++ i) = true →
        countOf db t ≤ 0 →
        (lstep db (.deleteOp t i true) now).2 =
            some "ValueError: count is already zero" ∧
          countOf (lstep db (.deleteOp t i true) now).1 t = countOf db t) :=
  ⟨fun b _ T hops hT hTs => (lifeInv_runLOps hops (lifeInv_initDB b)).count T hT hTs,
   fun _ _ _ now ht hts hpre h0 => lstep_delete_zero now ht hts hpre h0⟩

/-- A database holding one live `T` record while the stored `T` count is 0
(absent), as needed to exercise the zero-count delete guard. -/
def c4db : DB :=
  { dbStorage := [("T@1", .js (entityRecord "T" "1"))]
    auditEnabled := false
    dbAudit := Option.none }

/-- Concrete instance of `C4_count_invariant`: a create/delete run on type
`Person`, and the zero-count delete guard on `c4db`. -/
theorem C4_count_invariant_witness :
    countOf (runLOps (initDB false)
        [(.createAuto "Person" true, 1), (.deleteOp "Person" "1" true, 2)]) "Person" =
      (liveCount (runLOps (initDB false)
        [(.createAuto "Person" true, 1), (.deleteOp "Person" "1" true, 2)]) "Person" : Int) ∧
    ((lstep c4db (.deleteOp "T" "1" true) 5).2 =
        some "ValueError: count is already zero" ∧
      countOf (lstep c4db (.deleteOp "T" "1" true) 5).1 "T" = countOf c4db "T") :=
  ⟨C4_count_invariant.1 false _ "Person" (by decide) (by decide) (by decide),
   C4_count_invariant.2 c4db "T" "1" 5 (by decide) (by decide) (by decide) (by decide)⟩

/-! ## Identity map (claim C6)

`Entity.load` (src/kybra_simple_db/entity.py) consults `db.get_entity`
before reading the store, and constructed instances register themselves
via `db.register_entity`; those registry methods are not present in
`src/`.  Modelled from the spec: the registry is a per-database arena
indexed by (qualified type, id); instance references are represented by
allocation tokens, so "same reference" is "same token". -/

/-- Modelled from the spec: one session's in-memory state — the identity
map, a fresh-reference allocator, and a counter of store reads performed
by `Database.load` (used to observe that registry hits read nothing). -/
structure Session where
  reg : List ((String × String) × Nat)
  nextTok : Nat
  storeReads : Nat

/-- Modelled from the spec: `Database.get_entity(type_name, entity_id)`,
the identity-map lookup. -/
def getEntity (s : Session) (t i : String) : Option Nat :=
  (s.reg.find? (fun p => p.1 == (t, i))).map Prod.snd

/-- Modelled from the spec: explicitly clearing the identity map (the one
operation the spec allows to invalidate it within a session). -/
def clearReg (s : Session) : Session :=
  { s with reg := [] }

/-- `Entity.load(entity_id, level)` over an unchanging store `stored`:
the `level == 0` and falsy-id guards, then the registry consultation, and
only on a miss a store read followed by construction (the constructor
registers the fresh instance, per `db.register_entity` in
`Entity.__init__`).  Returns the updated session and the loaded
instance's token. -/
def entityLoad (stored : String → String → Option Json) (s : Session)
    (t i : String) (level : Nat) : Session × Option Nat :=
  if level = 0 then (s, Option.none)
  else if i = "" then (s, Option.none)
  else
    match getEntity s t i with
    | some e => (s, some e)
    | Option.none =>
        let s1 : Session := { s with storeReads := s.storeReads + 1 }
        match stored t i with
        | Option.none => (s1, Option.none)
        | some _ =>
            let tok := s1.nextTok
            ({ s1 with reg := s1.reg ++ [((t, i), tok)], nextTok := s1.nextTok + 1 },
              some tok)

/-- At most one registry entry per (qualified type, id). -/
def RegWF (s : Session) : Prop := (s.reg.map Prod.fst).Nodup

theorem entityLoad_guards {stored : String → String → Option Json}
    {s s' : Session} {t i : String} {level : Nat} {e : Nat}
    (h : entityLoad stored s t i level = (s', some e)) :
    ¬ level = 0 ∧ ¬ i = "" := by
  unfold entityLoad at h
  split_ifs at h with h0 hi
  · simp at h
  · simp at h
  · exact ⟨h0, hi⟩

theorem getEntity_after_load {stored : String → String → Option Json}
    {s s' : Session} {t i : String} {level : Nat} {e : Nat}
    (h : entityLoad stored s t i level = (s', some e)) :
    getEntity s' t i = some e := by
  unfold entityLoad at h
  split_ifs at h with h0 hi
  · simp at h
  · simp at h
  · rcases hg : getEntity s t i with _ | e0
    · rw [hg] at h
      dsimp only at h
      rcases hst : stored t i with _ | d
      · rw [hst] at h
        simp at h
      · rw [hst] at h
        dsimp only at h
        have hs := congrArg Prod.fst h
        have he := congrArg Prod.snd h
        dsimp only at hs he
        have hf : List.find? (fun p => p.1 == (t, i)) s.reg = Option.none := by
          rcases hE : List.find? (fun p => p.1 == (t, i)) s.reg with _ | q
          · exact hE
          · unfold getEntity at hg
            rw [hE] at hg
            simp at hg
        rw [← hs]
        unfold getEntity
        dsimp only
        rw [List.find?_append, hf]
        have hone : List.find? (fun p => p.1 == (t, i)) [((t, i), s.nextTok)] =
            some ((t, i), s.nextTok) :=
          @List.find?_cons_of_pos ((String × String) × Nat) (fun p => p.1 == (t, i))
            ((t, i), s.nextTok) [] (beq_self_eq_true (t, i))
        rw [hone]
        exact he
    · rw [hg] at h
      dsimp only at h
      have hs := congrArg Prod.fst h
      have he := congrArg Prod.snd h
      dsimp only at hs he
      rw [← hs, hg]
      exact he

theorem entityLoad_hit {stored : String → String → Option Json}
    {s : Session} {t i : String} {level : Nat} {e : Nat}
    (h0 : ¬ level = 0) (hi : ¬ i = "") (hg : getEntity s t i = some e) :
    entityLoad stored s t i level = (s, some e) := by
  unfold entityLoad
  rw [if_neg h0, if_neg hi, hg]

theorem regWF_entityLoad (stored : String → String → Option Json) (s : Session)
    (t i : String) (level : Nat) (hw : RegWF s) :
    RegWF (entityLoad stored s t i level).1 := by
  unfold entityLoad
  split_ifs with h0 hi
  · exact hw
  · exact hw
  · rcases hg : getEntity s t i with _ | e
    · dsimp only
      rcases hst : stored t i with _ | d <;> dsimp only
      · exact hw
      · unfold RegWF at hw ⊢
        dsimp only
        rw [List.map_append, List.nodup_append]
        refine ⟨hw, by simp, ?_⟩
        intro a ha hb
        simp only [List.map_cons, List.map_nil, List.mem_singleton] at hb
        subst hb
        rcases List.mem_map.mp ha with ⟨q, hq, hqa⟩
        rcases hE : List.find? (fun p => p.1 == (t, i)) s.reg with _ | w
        · rw [List.find?_eq_none] at hE
          apply hE q hq
          rw [hqa]
          exact beq_self_eq_true (t, i)
        · unfold getEntity at hg
          rw [hE] at hg
          simp at hg
    · dsimp only
      exact hw

theorem storeReads_after_clear (stored : String → String → Option Json)
    (s : Session) (t i : String) (level : Nat) (d : Json)
    (h0 : ¬ level = 0) (hi : ¬ i = "") (hst : stored t i = some d) :
    (entityLoad stored (clearReg s) t i level).1.storeReads = s.storeReads + 1 := by
  unfold entityLoad
  rw [if_neg h0, if_neg hi]
  have hg : getEntity (clearReg s) t i = Option.none := rfl
  rw [hg]
  dsimp only
  rw [hst]
  rfl

/-- C6: within one session, a load that finds (type, id) in the identity
map returns that very instance and changes nothing (in particular it
performs no store read); consequently repeating any successful load
returns the identical reference and is idempotent on the session; the
registry keeps at most one entry per (qualified type, id); and once the
map is explicitly cleared the next load goes back to the store. -/
theorem C6_identity_map :
    (∀ (stored : String → String → Option Json) (s s' : Session) (t i : String)
        (level e : Nat), entityLoad stored s t i level = (s', some e) →
        entityLoad stored s' t i level = (s', some e)) ∧
    (∀ (stored : String → String → Option Json) (s : Session) (t i : String)
        (level e : Nat), ¬ level = 0 → ¬ i = "" → getEntity s t i = some e →
        entityLoad stored s t i level = (s, some e)) ∧
    (∀ (stored : String → String → Option Json) (s : Session) (t i : String)
        (level : Nat), RegWF s → RegWF (entityLoad stored s t i level).1) ∧
    (∀ (stored : String → String → Option Json) (s : Session) (t i : String)
        (level : Nat) (d : Json), ¬ level = 0 → ¬ i = "" → stored t i = some d →
        (entityLoad stored (clearReg s) t i level).1.storeReads = s.storeReads + 1) :=
  ⟨fun _ _ _ _ _ _ _ h =>
    entityLoad_hit (entityLoad_guards h).1 (entityLoad_guards h).2
      (getEntity_after_load h),
   fun _ _ _ _ _ _ h0 hi hg => entityLoad_hit h0 hi hg,
   fun stored s t i level hw => regWF_entityLoad stored s t i level hw,
   fun stored s t i level d h0 hi hst =>
    storeReads_after_clear stored s t i level d h0 hi hst⟩

/-- A one-record backing store for the identity-map witnesses. -/
def c6stored : String → String → Option Json := fun t i =>
  if t == "Person" && i == "1" then some (entityRecord "Person" "1") else Option.none

/-- A fresh session. -/
def c6s0 : Session := { reg := [], nextTok := 0, storeReads := 0 }

/-- The session after the first (miss) load of `Person@1` from `c6s0`. -/
def c6s1 : Session := { reg := [(("Person", "1"), 0)], nextTok := 1, storeReads := 1 }

/-- Concrete instance of `C6_identity_map`: reloading `Person@1` after a
first load returns the same token 0 without touching the session, the
registry stays duplicate-free, and a load after clearing the map reads
the store again. -/
theorem C6_identity_map_witness :
    entityLoad c6stored c6s1 "Person" "1" 1 = (c6s1, some 0) ∧
    entityLoad c6stored c6s1 "Person" "1" 1 = (c6s1, some 0) ∧
    RegWF (entityLoad c6stored c6s0 "Person" "1" 1).1 ∧
    (entityLoad c6stored (clearReg c6s1) "Person" "1" 1).1.storeReads =
      c6s1.storeReads + 1 :=
  ⟨C6_identity_map.1 c6stored c6s0 c6s1 "Person" "1" 1 0 (by rfl),
   C6_identity_map.2.1 c6stored c6s1 "Person" "1" 1 0 (by decide) (by decide) (by rfl),
   C6_identity_map.2.2.1 c6stored c6s0 "Person" "1" 1 List.nodup_nil,
   C6_identity_map.2.2.2 c6stored c6s1 "Person" "1" 1 (entityRecord "Person" "1")
     (by decide) (by decide) (by rfl)⟩

/-! ## Serialization round-trip (claim C8) -/

/-- One field of a serialized entity dict: a property value, a single
relation reference (a related entity's `_id`), or a list of references. -/
inductive SField where
  | pv (v : PyVal)
  | ref (i : String)
  | refs (l : List String)
deriving DecidableEq, Repr

/-- Python `key.startswith("_")`. -/
def pyStartsUnderscore (k : String) : Bool :=
  match k.data with
  | [] => false
  | c :: _ => c == '_'

/-- The slice of an entity `Entity.serialize`/`Entity.deserialize` works
on: qualified type, id, the `_loaded` flag (it selects the hook action in
`Property.__set__`), the non-underscore property attributes (a Python
dict, so keys are unique) and the `_relations` edge lists (related
entities represented by their `_id`s). -/
structure SEntity where
  ty : String
  id : String
  loaded : Bool
  props : List (String × PyVal)
  rels : List (String × List String)
deriving DecidableEq, Repr

/-- The class-level context `deserialize` consults: `__version__` (a
positive int), the `migrate` class method over the raw data dict, the
`on_event` hook, the `Property` descriptor installed under each attribute
name (`none` for a plain instance attribute), and which names are
`Relation` / `*ToMany` descriptors. -/
structure SClass where
  version : Nat
  migrate : List (String × SField) → Nat → Nat → List (String × SField)
  hook : Hook PyVal
  pdef : String → Option PropDef
  isRel : String → Bool
  isToMany : String → Bool

/-- The relation clause of `Entity.serialize`: an empty edge list is
skipped, a single target of a non-`*ToMany` relation is stored as one
`_id` reference, anything else as the list of `_id`s. -/
def relField (isToMany : String → Bool) (r : String × List String) : Option SField :=
  match r.2 with
  | [] => Option.none
  | [x] => if isToMany r.1 then some (SField.refs [x]) else some (SField.ref x)
  | l => some (SField.refs l)

/-- `Entity.serialize`: `_type` and `_id`, then the non-underscore
attributes, then the relation references.  No `__version__` tag is
emitted (only `_save` adds one to the persisted copy). -/
def serializeEntity (cls : SClass) (e : SEntity) : List (String × SField) :=
  [("_type", SField.pv (.str e.ty)), ("_id", SField.pv (.str e.id))]
    ++ (e.props.filter (fun p => !(pyStartsUnderscore p.1))).map
        (fun p => (p.1, SField.pv p.2))
    ++ e.rels.filterMap (fun r => (relField cls.isToMany r).map (fun f => (r.1, f)))

/-- `data.get("__version__", 1)` as read by `deserialize`; the serialized
dict stores the version, when present, as an int value. -/
def storedVersion (data : List (String × SField)) : Nat :=
  match pyDictGet data "__version__" with
  | some (SField.pv (PyVal.int n)) => n.toNat
  | _ => 1

/-- `setattr(existing_entity, k, v)` on the deserialize UPDATE path, at
the dict level: with a `Property` descriptor under `k` this is
`Property.__set__` — read the old value (slot or default), pick the
action from `_loaded`, run the hook gate (denial raises `ValueError`),
then coerce and validate the possibly hook-rewritten value
(`checkedValue`), and only then store it; with no descriptor it is a
plain attribute write. -/
def upsertSet (cls : SClass) (loaded : Bool) (ps : List (String × PyVal))
    (k : String) (v : PyVal) : Except PErr (List (String × PyVal)) :=
  match cls.pdef k with
  | some pd =>
      let old := (pyDictGet ps k).getD pd.default
      let action : Action := if ¬ loaded then .create else .modify
      match callEntityHook cls.hook (some k) old v action with
      | (false, _) => .error .valueError
      | (true, v1) =>
          match checkedValue pd v1 with
          | .error err => .error err
          | .ok v2 => .ok (pyDictSet ps k v2)
  | Option.none => .ok (pyDictSet ps k v)

/-- One iteration of the merge-update loop in `Entity.deserialize`
(UPDATE branch): underscore keys are skipped, keys whose class attribute
is a `Relation` descriptor are deferred to `_pending_relations` (the
in-memory edge lists are untouched), and any other key goes through
`setattr` (`upsertSet`); a stray single-reference value reaching
`setattr` is its id string, and a list value has no scalar slot in the
model (both shapes only arise under relation-descriptor names, which the
`isinstance(prop, Relation)` test skips). -/
def upsertStep (cls : SClass) (loaded : Bool) (ps : List (String × PyVal))
    (kv : String × SField) : Except PErr (List (String × PyVal)) :=
  if pyStartsUnderscore kv.1 || cls.isRel kv.1 then .ok ps
  else
    match kv.2 with
    | .pv v => upsertSet cls loaded ps kv.1 v
    | .ref i => upsertSet cls loaded ps kv.1 (.str i)
    | .refs _ => .ok ps

/-- The merge-update loop itself; the first raise aborts `deserialize`. -/
def upsertLoop (cls : SClass) (loaded : Bool) :
    List (String × PyVal) → List (String × SField) →
      Except PErr (List (String × PyVal))
  | ps, [] => .ok ps
  | ps, kv :: rest =>
      match upsertStep cls loaded ps kv with
      | .error err => .error err
      | .ok ps1 => upsertLoop cls loaded ps1 rest

/-- `Entity.deserialize` on data whose `_id` resolves — through the
identity map, so with no id collision — to the live entity `e` itself:
first the version check (`data.get("__version__", 1)` against
`cls.__version__`, running `cls.migrate` and stamping the new version on
a mismatch), then the merge-update loop over the (possibly migrated)
data against `e`'s attribute dict; relation keys go to
`_pending_relations` without touching `e`'s edge lists, and the final
`_save` re-persists without changing the in-memory state. -/
def deserializeUpsert (cls : SClass) (e : SEntity)
    (data : List (String × SField)) : Except PErr SEntity :=
  let sv := storedVersion data
  let data1 :=
    if sv ≠ cls.version then
      pyDictSet (cls.migrate data sv cls.version) "__version__"
        (SField.pv (.int (cls.version : Int)))
    else data
  match upsertLoop cls e.loaded e.props data1 with
  | .error err => .error err
  | .ok ps => .ok { e with props := ps }

/-- Does the value already stored under `k` pass its own property checks
unchanged (no descriptor, or `checkedValue` returns it as is)? -/
def checksOut (cls : SClass) (k : String) (v : PyVal) : Bool :=
  match cls.pdef k with
  | some pd =>
      match checkedValue pd v with
      | .ok v' => v' == v
      | .error _ => false
  | Option.none => true

theorem map_replace_of_no_key {α : Type} {qs : List (String × α)} {k : String}
    {v : α} (h : ∀ x ∈ qs, x.1 ≠ k) :
    qs.map (fun p => if p.1 == k then (k, v) else p) = qs := by
  induction qs with
  | nil => rfl
  | cons q qs ih =>
      rw [List.map_cons, if_neg (by simp [h q (List.mem_cons_self q qs)]),
        ih (fun x hx => h x (List.mem_cons_of_mem q hx))]

theorem map_replace_self {ps : List (String × PyVal)} {k : String} {v : PyVal}
    (hnd : (ps.map Prod.fst).Nodup) (hmem : (k, v) ∈ ps) :
    ps.map (fun p => if p.1 == k then (k, v) else p) = ps := by
  induction ps with
  | nil => rfl
  | cons q qs ih =>
      rw [List.map_cons, List.nodup_cons] at hnd
      by_cases hq : q.1 = k
      · have hqv : q = (k, v) := by
          rcases List.mem_cons.mp hmem with he | hm
          · exact he.symm
          · exfalso
            apply hnd.1
            rw [hq]
            exact List.mem_map.mpr ⟨(k, v), hm, rfl⟩
        have hqs : ∀ x ∈ qs, x.1 ≠ k := by
          intro x hx he
          apply hnd.1
          have hxm : x.1 ∈ List.map Prod.fst qs := List.mem_map_of_mem Prod.fst hx
          rw [he, ← hq] at hxm
          exact hxm
        rw [List.map_cons, if_pos (by simp [hq]), hqv, map_replace_of_no_key hqs]
      · have hm : (k, v) ∈ qs := by
          rcases List.mem_cons.mp hmem with he | hm
          · exact absurd (congrArg Prod.fst he.symm) hq
          · exact hm
        rw [List.map_cons, if_neg (by simp [hq]), ih hnd.2 hm]

theorem pyDictSet_self {ps : List (String × PyVal)} {k : String} {v : PyVal}
    (hnd : (ps.map Prod.fst).Nodup) (hmem : (k, v) ∈ ps) : pyDictSet ps k v = ps := by
  unfold pyDictSet
  rw [if_pos (List.any_eq_true.mpr ⟨(k, v), hmem, by simp⟩), map_replace_self hnd hmem]

theorem relField_ne_pv {m : String → Bool} {r : String × List String} {v : PyVal} :
    relField m r ≠ some (SField.pv v) := by
  unfold relField
  rcases hE : r.2 with _ | ⟨x, xs⟩
  · intro h
    simp at h
  · rcases xs with _ | ⟨y, ys⟩
    · split_ifs <;> intro h <;> simp at h
    · intro h
      simp at h

theorem storedVersion_serialize (cls : SClass) (e : SEntity) :
    storedVersion (serializeEntity cls e) = 1 := by
  unfold storedVersion pyDictGet
  rcases hf : List.find? (fun p => p.1 == "__version__") (serializeEntity cls e)
    with _ | q
  · rw [hf]
    rfl
  · have hmem := List.mem_of_find?_eq_some hf
    have hkey := List.find?_some hf
    rw [beq_iff_eq] at hkey
    rw [hf]
    unfold serializeEntity at hmem
    rcases List.mem_append.mp hmem with h12 | h3
    · rcases List.mem_append.mp h12 with hA | hB
      · exfalso
        rcases List.mem_cons.mp hA with he | hA2
        · rw [he] at hkey
          exact absurd (show ("_type" : String) = "__version__" from hkey) (by decide)
        · rw [List.mem_singleton.mp hA2] at hkey
          exact absurd (show ("_id" : String) = "__version__" from hkey) (by decide)
      · exfalso
        rcases List.mem_map.mp hB with ⟨p, hp, hpq⟩
        have hu := List.of_mem_filter hp
        have h1 : p.1 = "__version__" := by
          rw [← hkey, ← hpq]
        rw [h1] at hu
        rw [show pyStartsUnderscore "__version__" = true from by decide] at hu
        simp at hu
    · rcases List.mem_filterMap.mp h3 with ⟨r, hr, hmk⟩
      rcases hrf : relField cls.isToMany r with _ | f
      · rw [hrf] at hmk
        simp at hmk
      · rw [hrf] at hmk
        have hq := Option.some.inj hmk
        rcases f with v | i | l
        · exact absurd hrf relField_ne_pv
        · rw [← hq]
          rfl
        · rw [← hq]
          rfl

theorem upsertStep_skip (cls : SClass) (loaded : Bool)
    (ps : List (String × PyVal)) (kv : String × SField)
    (h : pyStartsUnderscore kv.1 = true ∨ cls.isRel kv.1 = true) :
    upsertStep cls loaded ps kv = .ok ps := by
  unfold upsertStep
  rcases h with h | h <;> rw [h] <;> simp

theorem checkedValue_of_checksOut {cls : SClass} {k : String} {v : PyVal}
    {pd : PropDef} (hpd : cls.pdef k = some pd) (h : checksOut cls k v = true) :
    checkedValue pd v = .ok v := by
  unfold checksOut at h
  rw [hpd] at h
  dsimp only at h
  rcases hcv : checkedValue pd v with err | v'
  · rw [hcv] at h
    simp at h
  · rw [hcv] at h
    dsimp only at h
    rw [beq_iff_eq] at h
    rw [h]

theorem upsertSet_self (cls : SClass) (loaded : Bool)
    {ps : List (String × PyVal)} {k : String} {v : PyVal}
    (hnd : (ps.map Prod.fst).Nodup) (hmem : (k, v) ∈ ps)
    (hhook : ∀ (k' : String) (old v' : PyVal) (a : Action),
        callEntityHook cls.hook (some k') old v' a = (true, v'))
    (hchk : checksOut cls k v = true) :
    upsertSet cls loaded ps k v = .ok ps := by
  unfold upsertSet
  rcases hpd : cls.pdef k with _ | pd
  · dsimp only
    rw [pyDictSet_self hnd hmem]
  · dsimp only
    rw [hhook]
    dsimp only
    rw [checkedValue_of_checksOut hpd hchk]
    dsimp only
    rw [pyDictSet_self hnd hmem]

theorem upsertStep_prop (cls : SClass) (loaded : Bool)
    {ps : List (String × PyVal)} {k : String} {v : PyVal}
    (hu : pyStartsUnderscore k = false) (hr : cls.isRel k = false)
    (hset : upsertSet cls loaded ps k v = .ok ps) :
    upsertStep cls loaded ps (k, SField.pv v) = .ok ps := by
  unfold upsertStep
  dsimp only
  rw [hu, hr]
  rw [if_neg (by simp)]
  exact hset

theorem upsertLoop_self (cls : SClass) (loaded : Bool) (ps : List (String × PyVal))
    (data : List (String × SField))
    (h : ∀ kv ∈ data, upsertStep cls loaded ps kv = .ok ps) :
    upsertLoop cls loaded ps data = .ok ps := by
  induction data with
  | nil => rfl
  | cons kv rest ih =>
      unfold upsertLoop
      rw [h kv (List.mem_cons_self kv rest)]
      exact ih (fun q hq => h q (List.mem_cons_of_mem kv hq))

theorem upsertStep_serialize_self (cls : SClass) (e : SEntity)
    (hnd : (e.props.map Prod.fst).Nodup)
    (hhook : ∀ (k : String) (old v : PyVal) (a : Action),
        callEntityHook cls.hook (some k) old v a = (true, v))
    (hchk : ∀ p ∈ e.props, checksOut cls p.1 p.2 = true)
    (hprop : ∀ p ∈ e.props, cls.isRel p.1 = false)
    (hrel : ∀ r ∈ e.rels, cls.isRel r.1 = true) :
    ∀ kv ∈ serializeEntity cls e, upsertStep cls e.loaded e.props kv = .ok e.props := by
  intro kv hkv
  unfold serializeEntity at hkv
  rcases List.mem_append.mp hkv with h12 | h3
  · rcases List.mem_append.mp h12 with hA | hB
    · rcases List.mem_cons.mp hA with he | hA2
      · rw [he]
        exact upsertStep_skip cls e.loaded e.props _
          (Or.inl (show pyStartsUnderscore "_type" = true from by decide))
      · rw [List.mem_singleton.mp hA2]
        exact upsertStep_skip cls e.loaded e.props _
          (Or.inl (show pyStartsUnderscore "_id" = true from by decide))
    · rcases List.mem_map.mp hB with ⟨p, hp, hpq⟩
      have hmem : p ∈ e.props := List.mem_of_mem_filter hp
      have hu : pyStartsUnderscore p.1 = false := by
        have := List.of_mem_filter hp
        simpa using this
      rw [← hpq]
      exact upsertStep_prop cls e.loaded hu (hprop p hmem)
        (upsertSet_self cls e.loaded hnd hmem hhook (hchk p hmem))
  · rcases List.mem_filterMap.mp h3 with ⟨r, hr, hmk⟩
    rcases hrf : relField cls.isToMany r with _ | f
    · rw [hrf] at hmk
      simp at hmk
    · rw [hrf] at hmk
      rw [← Option.some.inj hmk]
      exact upsertStep_skip cls e.loaded e.props _ (Or.inr (hrel r hr))

theorem deserializeUpsert_serialize (cls : SClass) (e : SEntity)
    (hnd : (e.props.map Prod.fst).Nodup)
    (hver : cls.version = 1)
    (hhook : ∀ (k : String) (old v : PyVal) (a : Action),
        callEntityHook cls.hook (some k) old v a = (true, v))
    (hchk : ∀ p ∈ e.props, checksOut cls p.1 p.2 = true)
    (hprop : ∀ p ∈ e.props, cls.isRel p.1 = false)
    (hrel : ∀ r ∈ e.rels, cls.isRel r.1 = true) :
    deserializeUpsert cls e (serializeEntity cls e) = .ok e := by
  unfold deserializeUpsert
  dsimp only
  rw [storedVersion_serialize, hver]
  rw [if_neg (by simp)]
  rw [upsertLoop_self cls e.loaded e.props (serializeEntity cls e)
    (upsertStep_serialize_self cls e hnd hhook hchk hprop hrel)]

/-- C8 (amended): the round trip holds for a live entity with no id
collision provided the class machinery the UPDATE path re-runs is
inert on the entity's own data: the class is at schema version 1 (the
serialized dict carries no `__version__`, so a higher class version
re-runs `migrate` from version 1, which may rewrite fields), the
`on_event` hook allows every value unchanged (e.g. no hook), and each
stored property value passes its own coercion/validator unchanged.
Then `deserialize(serialize(e))` returns `e` itself, and the
reserialized output is field-for-field equal — every multi-valued
relation list is reproduced even in order, hence set-equal. -/
theorem C8_serialization_roundtrip (cls : SClass) (e : SEntity)
    (hnd : (e.props.map Prod.fst).Nodup)
    (hver : cls.version = 1)
    (hhook : ∀ (k : String) (old v : PyVal) (a : Action),
        callEntityHook cls.hook (some k) old v a = (true, v))
    (hchk : ∀ p ∈ e.props, checksOut cls p.1 p.2 = true)
    (hprop : ∀ p ∈ e.props, cls.isRel p.1 = false)
    (hrel : ∀ r ∈ e.rels, cls.isRel r.1 = true) :
    deserializeUpsert cls e (serializeEntity cls e) = .ok e ∧
    ∀ e', deserializeUpsert cls e (serializeEntity cls e) = .ok e' →
      serializeEntity cls e' = serializeEntity cls e := by
  have h := deserializeUpsert_serialize cls e hnd hver hhook hchk hprop hrel
  refine ⟨h, ?_⟩
  intro e' h'
  rw [h] at h'
  rw [← Except.ok.inj h']

/-- A hook that rewrites every proposed value to the string
`"rewritten"` while allowing the change. -/
def c8hookRw : Hook PyVal :=
  some (fun _ _ _ _ => HookRet.retPair true (PyVal.str "rewritten"))

/-- A version-1 class whose hook rewrites values; `name` is a plain
string property with no validator. -/
def c8clsRw : SClass :=
  { version := 1
    migrate := fun d _ _ => d
    hook := c8hookRw
    pdef := fun k =>
      if k == "name" then
        some { name := "name", ptype := PType.str, default := PyVal.none,
               validator := Option.none }
      else Option.none
    isRel := fun _ => false
    isToMany := fun _ => false }

/-- A live entity of `c8clsRw` with `name = "Alice"`. -/
def c8eRw : SEntity :=
  { ty := "Person", id := "1", loaded := true
    props := [("name", PyVal.str "Alice")], rels := [] }

/-- A class at schema version 2 whose migration resets `age` to 0; all
attributes are plain (no descriptors). -/
def c8clsMig : SClass :=
  { version := 2
    migrate := fun d _ _ => pyDictSet d "age" (SField.pv (PyVal.int 0))
    hook := Option.none
    pdef := fun _ => Option.none
    isRel := fun _ => false
    isToMany := fun _ => false }

/-- A live entity of `c8clsMig` with `age = 30`. -/
def c8eMig : SEntity :=
  { ty := "P", id := "1", loaded := true
    props := [("age", PyVal.int 30)], rels := [] }

/-- C8, counterexample to the unconditional claim: the UPDATE path of
`deserialize` re-runs the class machinery, so the round trip is not
field-for-field equal for every entity.  With a value-rewriting
`on_event` hook the upsert's `setattr` goes through `Property.__set__`
and stores the hook's replacement, so the reserialized `name` field
differs — a scalar field, not excused by relation-list reordering.  And
with a class at `__version__ = 2`, `serialize` emits no version tag, so
`deserialize` re-runs `migrate(data, 1, 2)`, which here resets `age`. -/
theorem C8_counterexample :
    (deserializeUpsert c8clsRw c8eRw (serializeEntity c8clsRw c8eRw) =
        .ok { c8eRw with props := [("name", PyVal.str "rewritten")] } ∧
      pyDictGet (serializeEntity c8clsRw
          { c8eRw with props := [("name", PyVal.str "rewritten")] }) "name" ≠
        pyDictGet (serializeEntity c8clsRw c8eRw) "name") ∧
    (deserializeUpsert c8clsMig c8eMig (serializeEntity c8clsMig c8eMig) =
        .ok { c8eMig with props := [("age", PyVal.int 0)] } ∧
      pyDictGet (serializeEntity c8clsMig
          { c8eMig with props := [("age", PyVal.int 0)] }) "age" ≠
        pyDictGet (serializeEntity c8clsMig c8eMig) "age") :=
  ⟨⟨rfl, by decide⟩, ⟨rfl, by decide⟩⟩

/-- A hook-free version-1 class for the round-trip witness: `name` is a
string property with a min-length validator, `age` an int property with a
non-negativity validator, `friends`/`boss` relation descriptors. -/
def c8cls : SClass :=
  { version := 1
    migrate := fun d _ _ => d
    hook := Option.none
    pdef := fun k =>
      if k == "name" then
        some { name := "name", ptype := PType.str, default := PyVal.none,
               validator := some (fun v => match v with
                 | PyVal.str s => decide (1 ≤ s.length)
                 | _ => false) }
      else if k == "age" then
        some { name := "age", ptype := PType.int, default := PyVal.none,
               validator := some (fun v => match v with
                 | PyVal.int n => decide (0 ≤ n)
                 | _ => false) }
      else Option.none
    isRel := fun n => n == "friends" || n == "boss"
    isToMany := fun n => n == "friends" }

/-- A concrete live entity of `c8cls` with two checked scalar properties,
a two-target `*ToMany` relation and a single-target relation. -/
def c8e : SEntity :=
  { ty := "Person"
    id := "1"
    loaded := true
    props := [("name", PyVal.str "Alice"), ("age", PyVal.int 30)]
    rels := [("friends", ["2", "3"]), ("boss", ["4"])] }

/-- Concrete instance of `C8_serialization_roundtrip` on `c8cls`/`c8e`. -/
theorem C8_serialization_roundtrip_witness :
    deserializeUpsert c8cls c8e (serializeEntity c8cls c8e) = .ok c8e ∧
    ∀ e', deserializeUpsert c8cls c8e (serializeEntity c8cls c8e) = .ok e' →
      serializeEntity c8cls e' = serializeEntity c8cls c8e :=
  C8_serialization_roundtrip c8cls c8e (by decide) rfl (fun _ _ _ _ => rfl)
    (by decide) (by decide) (by decide)

end KSDB
